import Mathlib

/-!
Verification development for the agent-orchestration core of the
`janus-prop-ai` backend (`Backend/AI_bot/core/agent_manager.py`,
`Backend/AI_bot/core/communication.py`, `Backend/AI_bot/core/exceptions.py`).

Python dictionaries are modelled as association lists over `String` keys
(keys are unique in every reachable state), Python `set`s as duplicate-free
lists in insertion order, `datetime.utcnow()` as a `Nat` passed in by the
caller, and `asyncio` awaits as ordinary sequential evaluation (each modelled
operation is one atomic run of the corresponding coroutine body).
-/

namespace Janus

/-! ## Association lists (model of Python `dict`) -/

/-- Lookup of `d[k]` / `k in d`: first entry with the given key. -/
def alookup {α : Type} (k : String) : List (String × α) → Option α
  | [] => none
  | (k₁, v) :: rest => if k₁ = k then some v else alookup k rest

/-- `d[k] = v`: replace the first entry with key `k`, or append a new entry. -/
def ainsert {α : Type} (k : String) (v : α) : List (String × α) → List (String × α)
  | [] => [(k, v)]
  | (k₁, v₁) :: rest => if k₁ = k then (k, v) :: rest else (k₁, v₁) :: ainsert k v rest

/-- `del d[k]`: remove the first entry with key `k`. -/
def aerase {α : Type} (k : String) : List (String × α) → List (String × α)
  | [] => []
  | (k₁, v₁) :: rest => if k₁ = k then rest else (k₁, v₁) :: aerase k rest

/-! ## Data model of `communication.py` -/

/-- Opaque structured data (`Dict[str, Any]` payloads whose values the core
never inspects), modelled as a string-to-string association list. -/
abbrev Payload := List (String × String)

/-- A `Message.payload` is either a generic dict, or the specific
`{"event_type": ..., "data": ...}` dict built by `publish_event`. -/
inductive MsgPayload where
  | raw (entries : Payload)
  | event (event_type : String) (data : Payload)
deriving DecidableEq, Repr

/-- `communication.Message`. `MessageType` and `MessagePriority` are string
enums (`use_enum_values`), modelled by their string values. -/
structure Message where
  message_id : String
  sender_id : String
  recipient_id : Option String := none
  message_type : String
  priority : String := "normal"
  timestamp : Nat := 0
  correlation_id : Option String := none
  payload : MsgPayload := MsgPayload.raw []
  metadata : Payload := []
deriving DecidableEq, Repr

/-- State of `CommunicationManager`. The `MessageHandler` values of
`self.agents` are only consumed by the per-agent consumer loops (not part of
the claims below), so the dict is modelled by its key list; `message_queues`
maps an agent id to the FIFO contents of its `asyncio.Queue` (enqueue at the
tail); `subscriptions` maps an event type to its subscriber set. -/
structure CommState where
  agents : List String
  message_queues : List (String × List Message)
  subscriptions : List (String × List String)
deriving DecidableEq, Repr

/-- The broadcast branch of `send_message`: one `message.copy()` per
registered agent, `recipient_id` rewritten, enqueued on that agent's queue.
A missing queue raises `KeyError`, which the surrounding `try` of
`send_message` turns into a `False` return (earlier enqueues persist). -/
def broadcastLoop (message : Message) :
    List String → List (String × List Message) → List (String × List Message) × Bool
  | [], queues => (queues, true)
  | agent_id :: rest, queues =>
    match alookup agent_id queues with
    | none => (queues, false)
    | some q =>
      broadcastLoop message rest
        (ainsert agent_id (q ++ [{ message with recipient_id := some agent_id }]) queues)

/-- `CommunicationManager.send_message`. Python truthiness: the broadcast
branch is taken when `recipient_id` is `None` *or* the empty string. -/
def send_message (st : CommState) (message : Message) : CommState × Bool :=
  match message.recipient_id with
  | some r =>
    if r = "" then
      let p := broadcastLoop message st.agents st.message_queues
      ({ st with message_queues := p.1 }, p.2)
    else if r ∈ st.agents then
      match alookup r st.message_queues with
      | none => (st, false)
      | some q => ({ st with message_queues := ainsert r (q ++ [message]) st.message_queues }, true)
    else (st, false)
  | none =>
    let p := broadcastLoop message st.agents st.message_queues
    ({ st with message_queues := p.1 }, p.2)

/-- The `Message` constructed by `publish_event` (before the per-subscriber
`copy()` that sets `recipient_id`). `message_id` / `now` stand for the
freshly generated uuid and `datetime.utcnow()`. -/
def eventMessage (event_type : String) (data : Payload) (sender_id : String)
    (message_id : String) (now : Nat) : Message :=
  { message_id := message_id
    sender_id := sender_id
    recipient_id := none
    message_type := "status_update"
    priority := "normal"
    timestamp := now
    correlation_id := none
    payload := MsgPayload.event event_type data
    metadata := [("is_event", "True")] }

/-- The per-subscriber loop of `publish_event`. `publish_event` has no
`try`/`except`, so a subscriber without a queue raises an uncaught
`KeyError`, modelled as `none`. -/
def publishLoop (message : Message) (sender_id : String) :
    List String → List (String × List Message) → Option (List (String × List Message))
  | [], queues => some queues
  | agent_id :: rest, queues =>
    if agent_id = sender_id then publishLoop message sender_id rest queues
    else
      match alookup agent_id queues with
      | none => none
      | some q =>
        publishLoop message sender_id rest
          (ainsert agent_id (q ++ [{ message with recipient_id := some agent_id }]) queues)

/-- `CommunicationManager.publish_event`: early return when the topic has no
subscription entry; otherwise one copy per subscriber other than the sender. -/
def publish_event (st : CommState) (event_type : String) (data : Payload)
    (sender_id : String) (message_id : String) (now : Nat) : Option CommState :=
  match alookup event_type st.subscriptions with
  | none => some st
  | some subscribers =>
    let message := eventMessage event_type data sender_id message_id now
    match publishLoop message sender_id subscribers st.message_queues with
    | none => none
    | some queues => some { st with message_queues := queues }

/-! ## Data model of `agent_manager.py` and `exceptions.py` -/

/-- The exceptions that can escape the modelled `AgentManager` methods
(from `exceptions.py`, plus plain `Exception`s raised inline). -/
inductive MgrErr where
  | agentError (msg : String)
  | resourceNotFound (msg resource_type resource_id : String)
  | agentTimeout (msg : String)
  | keyError (k : String)
  | raised (e : String)
deriving DecidableEq, Repr

/-- `AgentRegistration`. The live `agent_instance` and its `config` are not
data (they are behaviour); the instance's behaviour enters the model as the
`proc` / `health` function parameters of the operations below. -/
structure AgentRegistration where
  agent_id : String
  agent_type : String
  capabilities : List String
  registered_at : Nat
  last_heartbeat : Nat
  status : String := "active"
deriving DecidableEq, Repr

/-- The registry state of `AgentManager`: `self.agents` and the
`self.agent_types` category index (a dict of Python sets, modelled as
duplicate-free lists). -/
structure MgrState where
  agents : List (String × AgentRegistration)
  agent_types : List (String × List String)
deriving DecidableEq, Repr

/-- `base_agent.AgentResponse` (fields consumed by the orchestration core). -/
structure AgentResponse where
  success : Bool
  data : Option Payload := none
  error : Option String := none
  agent_id : String
  processing_time : Option Nat := none
deriving DecidableEq, Repr

/-- Outcome of `asyncio.wait_for(agent.process_request(...), timeout)` for a
given agent id: a response before the deadline, a timeout, or an exception
raised by `process_request`. -/
inductive ProcOutcome where
  | ok (response : AgentResponse)
  | timeout
  | raised (e : String)
deriving DecidableEq, Repr

/-- Outcome of `agent.health_check()`: the returned `"status"` value, or a
raised exception (a missing `"status"` key also raises, a `KeyError`). -/
inductive HealthOutcome where
  | status (s : String)
  | raised (e : String)
deriving DecidableEq, Repr

/-- `AgentManager.register_agent`. `capabilities` is the
`supported_operations` list reported by the instance, `now` is
`datetime.utcnow()`. The call into
`communication_manager.register_agent` touches only the bus state and is
modelled separately (`CommState`). -/
def register_agent (st : MgrState) (agent_id agent_type : String)
    (capabilities : List String) (now : Nat) : Except MgrErr (MgrState × String) :=
  if (alookup agent_id st.agents).isSome then
    Except.error (MgrErr.agentError ("Agent " ++ agent_id ++ " is already registered"))
  else
    let registration : AgentRegistration :=
      { agent_id := agent_id, agent_type := agent_type, capabilities := capabilities,
        registered_at := now, last_heartbeat := now, status := "active" }
    let ids := (alookup agent_type st.agent_types).getD []
    Except.ok
      ({ agents := ainsert agent_id registration st.agents,
         agent_types := ainsert agent_type (if agent_id ∈ ids then ids else ids ++ [agent_id])
           st.agent_types },
       agent_id)

/-- `AgentManager.unregister_agent`: a no-op for an unknown id; otherwise
removes the category index entry (deleting the category key if its set
becomes empty) and deletes the registration. The communication-manager
unregistration and the agent's `shutdown()` hook are external effects. -/
def unregister_agent (st : MgrState) (agent_id : String) : MgrState :=
  match alookup agent_id st.agents with
  | none => st
  | some registration =>
    let agent_types' :=
      match alookup registration.agent_type st.agent_types with
      | none => st.agent_types
      | some ids =>
        let ids' := ids.filter (fun i => i != agent_id)
        if ids' = [] then aerase registration.agent_type st.agent_types
        else ainsert registration.agent_type ids' st.agent_types
    { agents := aerase agent_id st.agents, agent_types := agent_types' }

/-- `AgentManager.query_agent`. Raises `ResourceNotFoundError` when the
category is absent or its id set is empty (`not self.agent_types[agent_type]`);
otherwise selects `list(set)[0]` — with *no* filtering on registration
status — and awaits the agent's `process_request` under the timeout,
refreshing `last_heartbeat` on success. -/
def query_agent (st : MgrState) (proc : String → ProcOutcome) (now : Nat)
    (agent_type : String) : MgrState × Except MgrErr AgentResponse :=
  let agent_ids := (alookup agent_type st.agent_types).getD []
  match agent_ids with
  | [] =>
    (st, Except.error (MgrErr.resourceNotFound
      ("No agents of type '" ++ agent_type ++ "' available") "agent_type" agent_type))
  | selected_agent_id :: _ =>
    match alookup selected_agent_id st.agents with
    | none => (st, Except.error (MgrErr.keyError selected_agent_id))
    | some registration =>
      match proc selected_agent_id with
      | ProcOutcome.ok response =>
        ({ st with agents :=
            ainsert selected_agent_id { registration with last_heartbeat := now } st.agents },
         Except.ok response)
      | ProcOutcome.timeout =>
        (st, Except.error (MgrErr.agentTimeout "Agent query timed out"))
      | ProcOutcome.raised e => (st, Except.error (MgrErr.raised e))

/-- One registration update of the `_health_check_loop` body: a `"healthy"`
status sets the status to `active` and refreshes the heartbeat; any other
status, or a raised health check, sets the status to `error` and leaves the
heartbeat untouched. -/
def healthCheckStep (health : String → HealthOutcome) (now : Nat)
    (registration : AgentRegistration) : AgentRegistration :=
  match health registration.agent_id with
  | HealthOutcome.status s =>
    if s = "healthy" then { registration with status := "active", last_heartbeat := now }
    else { registration with status := "error" }
  | HealthOutcome.raised _ => { registration with status := "error" }

/-- One full cycle of `_health_check_loop` over `self.agents.items()`:
every registration is updated in place from its own agent's health check. -/
def health_check_cycle (health : String → HealthOutcome) (now : Nat)
    (agents : List (String × AgentRegistration)) : List (String × AgentRegistration) :=
  agents.map (fun p => (p.1, healthCheckStep health now p.2))

/-! ## Workflow construction (`AgentManager.create_workflow`) -/

/-- A value found in a step definition's `"dependencies"` list:
either something for which `isinstance(dep_idx, int)` holds, or any
non-integer value (carried only for logging). -/
inductive DepDecl where
  | intDep (d : Int)
  | otherDep (text : String)
deriving DecidableEq, Repr

/-- One entry of the `workflow_definition` list. `dependencies = none`
models a dict without a `"dependencies"` key. -/
structure StepDef where
  agent : String
  task : String
  data : Payload := []
  dependencies : Option (List DepDecl) := none
deriving DecidableEq, Repr

/-- `agent_manager.WorkflowStep`. -/
structure WStep where
  step_id : String
  agent_type : String
  task : String
  data : Payload := []
  dependencies : List String := []
  status : String := "pending"
  result : Option Payload := none
  error : Option String := none
  started_at : Option Nat := none
  completed_at : Option Nat := none
deriving DecidableEq, Repr

/-- `agent_manager.Workflow`. -/
structure Workflow where
  workflow_id : String
  name : String
  description : String
  steps : List WStep
  status : String := "pending"
  created_at : Nat := 0
  started_at : Option Nat := none
  completed_at : Option Nat := none
deriving DecidableEq, Repr

/-- The inner dependency-conversion loop of `create_workflow` at step
position `i`: an integer index with `0 <= dep_idx < i` is rewritten to
`step_ids[dep_idx]`; anything else only logs a warning and is dropped.
`step_ids` is the id list accumulated so far (it already contains the
current step's id, at position `i`, when the loop runs). -/
def resolveDeps (step_ids : List String) (i : Nat) : List DepDecl → List String
  | [] => []
  | DepDecl.intDep d :: rest =>
    if 0 ≤ d ∧ d < (i : Int) then
      match step_ids.get? d.toNat with
      | some sid => sid :: resolveDeps step_ids i rest
      | none => resolveDeps step_ids i rest
    else resolveDeps step_ids i rest
  | DepDecl.otherDep _ :: rest => resolveDeps step_ids i rest

/-- The step-construction loop of `create_workflow`, with the enumeration
index `i` and the growing `step_ids` accumulator made explicit. `genId`
supplies the fresh `str(uuid4())` for each position. -/
def buildStepsAux (genId : Nat → String) : Nat → List String → List StepDef → List WStep
  | _, _, [] => []
  | i, step_ids, sd :: rest =>
    let step_id := genId i
    let step_ids' := step_ids ++ [step_id]
    let dependencies :=
      match sd.dependencies with
      | none => []
      | some ds => resolveDeps step_ids' i ds
    { step_id := step_id, agent_type := sd.agent, task := sd.task, data := sd.data,
      dependencies := dependencies : WStep } :: buildStepsAux genId (i + 1) step_ids' rest

def buildSteps (genId : Nat → String) (defs : List StepDef) : List WStep :=
  buildStepsAux genId 0 [] defs

/-- `AgentManager.create_workflow` (pure part): resolves dependencies and
builds the `Workflow` record. `workflow_id` stands for the generated uuid
and `now` for `datetime.utcnow()`. -/
def create_workflow (genId : Nat → String) (workflow_id : String) (now : Nat)
    (defs : List StepDef) : Workflow :=
  { workflow_id := workflow_id
    name := "Workflow_" ++ toString now
    description := "Generated workflow"
    steps := buildSteps genId defs
    status := "pending"
    created_at := now }

/-- `create_workflow` including the `self.workflows[...] = workflow` store:
the workflow is always created and stored, never rejected. -/
def create_workflow_store (genId : Nat → String) (workflow_id : String) (now : Nat)
    (workflows : List (String × Workflow)) (defs : List StepDef) :
    List (String × Workflow) × Workflow :=
  let workflow := create_workflow genId workflow_id now defs
  (ainsert workflow.workflow_id workflow workflows, workflow)

/-! ## Workflow execution (`AgentManager.execute_workflow`) -/

/-- Outcome of the `await self.query_agent(step.agent_type, step.task,
step.data)` dispatch inside `execute_workflow`: either a returned
`AgentResponse`, or a raised exception (no agent available, timeout, or an
error from `process_request`). -/
inductive QRes where
  | resp (response : AgentResponse)
  | raised (e : String)
deriving DecidableEq, Repr

/-- The dispatch environment: the behaviour of `query_agent` as seen by
`execute_workflow`, keyed by `(agent_type, task, data)`. -/
abbrev Env := String → String → Payload → QRes

/-- Python renders `None` as the string `"None"` inside the
`f"Step failed: {response.error}"` message. -/
def optStr : Option String → String
  | some s => s
  | none => "None"

/-- Events observable during one `execute_workflow` call, in order:
a step set to `running` and dispatched (with its dependency list and the
`completed_steps` snapshot at that moment), a step completing, a step
failing. -/
inductive Ev where
  | started (step_id : String) (deps : List String) (snapshot : List String)
  | stepCompleted (step_id : String)
  | stepFailed (step_id : String)
deriving DecidableEq, Repr

/-- The loop state of `execute_workflow`: the (mutated-in-place) step list,
the local `completed_steps` set, the local `results` dict, and the event
trace of this call. -/
structure ExecSt where
  steps : List WStep
  completed : List String
  results : List (String × Option Payload)
  trace : List Ev
deriving DecidableEq, Repr

/-- Result of one full `for step in workflow.steps:` scan. `abort = some e`
when a step failed and the exception `e` is propagating. -/
structure ScanRes where
  steps : List WStep
  completed : List String
  results : List (String × Option Payload)
  trace : List Ev
  abort : Option String
deriving DecidableEq, Repr

/-- One full scan of the step list. A step still `pending`, not yet in
`completed_steps`, with all dependencies in `completed_steps`, is set to
`running` and dispatched; success marks it `completed`, stores the result
and adds it to `completed_steps`; a failure response or a raised dispatch
marks it `failed`, records the error and aborts the scan (the exception
propagates, leaving the remaining steps untouched). -/
def scanSteps (env : Env) (now : Nat) :
    List WStep → List String → List (String × Option Payload) → List Ev → ScanRes
  | [], completed, results, trace => ⟨[], completed, results, trace, none⟩
  | step :: rest, completed, results, trace =>
    if step.step_id ∉ completed ∧ step.status = "pending" ∧
        ∀ dep ∈ step.dependencies, dep ∈ completed then
      let trace₁ := trace ++ [Ev.started step.step_id step.dependencies completed]
      match env step.agent_type step.task step.data with
      | QRes.resp response =>
        if response.success then
          let step' := { step with
            status := "completed"
            result := response.data
            started_at := some now
            completed_at := some now }
          let r := scanSteps env now rest (completed ++ [step.step_id])
            (results ++ [(step.step_id, response.data)])
            (trace₁ ++ [Ev.stepCompleted step.step_id])
          { r with steps := step' :: r.steps }
        else
          let e := "Step failed: " ++ optStr response.error
          let step' := { step with
            status := "failed"
            error := some e
            started_at := some now
            completed_at := some now }
          ⟨step' :: rest, completed, results, trace₁ ++ [Ev.stepFailed step.step_id], some e⟩
      | QRes.raised e =>
        let step' := { step with
          status := "failed"
          error := some e
          started_at := some now
          completed_at := some now }
        ⟨step' :: rest, completed, results, trace₁ ++ [Ev.stepFailed step.step_id], some e⟩
    else
      let r := scanSteps env now rest completed results trace
      { r with steps := step :: r.steps }

/-- Result of the `while len(completed_steps) < len(workflow.steps):` loop.
`fuelOut` marks an execution that is still looping after `fuel` scans. -/
inductive LoopRes where
  | finished (st : ExecSt)
  | aborted (e : String) (st : ExecSt)
  | fuelOut (st : ExecSt)
deriving DecidableEq, Repr

def LoopRes.state : LoopRes → ExecSt
  | LoopRes.finished st => st
  | LoopRes.aborted _ st => st
  | LoopRes.fuelOut st => st

/-- The scan loop of `execute_workflow`, one fuel unit per iteration. After
a scan that did not abort, `if len(completed_steps) == 0:` raises the
deadlock exception — note this tests the *total* number of completed steps,
not the progress of the scan that just finished. -/
def execLoop (env : Env) (now : Nat) : Nat → ExecSt → LoopRes
  | 0, st =>
    if st.completed.length < st.steps.length then LoopRes.fuelOut st else LoopRes.finished st
  | fuel + 1, st =>
    if st.completed.length < st.steps.length then
      let r := scanSteps env now st.steps st.completed st.results st.trace
      let st' : ExecSt := ⟨r.steps, r.completed, r.results, r.trace⟩
      match r.abort with
      | some e => LoopRes.aborted e st'
      | none =>
        if st'.completed.length = 0 then
          LoopRes.aborted "Workflow deadlock detected - no progress possible" st'
        else execLoop env now fuel st'
    else LoopRes.finished st

/-- Outcome of an `execute_workflow` call. -/
inductive ExecOutcome where
  | ok (results : List (String × Option Payload))
  | error (e : MgrErr)
  | fuelOut
deriving DecidableEq, Repr

/-- `AgentManager.execute_workflow`: looks the workflow up, marks it
`running`, runs the scan loop, and on completion/abort stores the updated
workflow back (`completed` with the result map returned, or `failed` with
the exception re-raised). `fuelOut` reports an execution still looping
after `fuel` iterations, the workflow left `running`. -/
def execute_workflow (env : Env) (now : Nat) (fuel : Nat)
    (workflows : List (String × Workflow)) (workflow_id : String) :
    List (String × Workflow) × ExecOutcome :=
  match alookup workflow_id workflows with
  | none =>
    (workflows, ExecOutcome.error (MgrErr.resourceNotFound
      ("Workflow " ++ workflow_id ++ " not found") "workflow" workflow_id))
  | some workflow =>
    let wf₁ := { workflow with status := "running", started_at := some now }
    match execLoop env now fuel ⟨wf₁.steps, [], [], []⟩ with
    | LoopRes.finished st =>
      let wf₂ := { wf₁ with steps := st.steps, status := "completed", completed_at := some now }
      (ainsert workflow_id wf₂ workflows, ExecOutcome.ok st.results)
    | LoopRes.aborted e st =>
      let wf₂ := { wf₁ with steps := st.steps, status := "failed", completed_at := some now }
      (ainsert workflow_id wf₂ workflows, ExecOutcome.error (MgrErr.raised e))
    | LoopRes.fuelOut st =>
      let wf₂ := { wf₁ with steps := st.steps }
      (ainsert workflow_id wf₂ workflows, ExecOutcome.fuelOut)

/-! ## Concrete sample scenario

A three-step workflow: step 0 succeeds, step 1 (depending on step 0) fails,
step 2 has no dependencies and succeeds. Used as failing input for the
deadlock claim and as witness data elsewhere. -/

def sampleGenId : Nat → String := fun i => "step" ++ toString i

def sampleEnv : Env := fun _ task _ =>
  if task = "boom" then
    QRes.resp { success := false, error := some "boom", agent_id := "agent1" }
  else
    QRes.resp { success := true, data := some [("out", task)], agent_id := "agent1" }

def sampleDefs : List StepDef :=
  [ { agent := "x", task := "t0" },
    { agent := "x", task := "boom", dependencies := some [DepDecl.intDep 0] },
    { agent := "x", task := "t2" } ]

def sampleWorkflow : Workflow := create_workflow sampleGenId "w1" 0 sampleDefs

def sampleStore : List (String × Workflow) := [("w1", sampleWorkflow)]

/-- The workflow store after the first `execute_workflow` call (which fails
at step 1, leaving step 0 `completed`, step 1 `failed`, step 2 `pending`). -/
def rerunStore : List (String × Workflow) := (execute_workflow sampleEnv 0 5 sampleStore "w1").1

def rerunWf : Workflow := (alookup "w1" rerunStore).getD sampleWorkflow

def rerunSt : ExecSt := ⟨rerunWf.steps, [], [], []⟩

/-- The loop state reached after the first scan of the re-execution:
step 2 has completed, `completed_steps = [step2]`, and no pending step can
ever become ready again. -/
def stuckSt : ExecSt :=
  let r := scanSteps sampleEnv 0 rerunSt.steps [] [] []
  ⟨r.steps, r.completed, r.results, r.trace⟩

/-! ## Dependency resolution: spec-side rule and characterization -/

/-- Spec-side resolution rule, written from the claim's words: a declared
dependency of the step at position `i` resolves to the fresh id of the step
at the declared index exactly when it is an integer `d` with `0 ≤ d < i`;
every other declared dependency is dropped. To be compared with the
code-side `resolveDeps`. -/
def specResolveDecl (genId : Nat → String) (i : Nat) : DepDecl → Option String
  | DepDecl.intDep d => if 0 ≤ d ∧ d < (i : Int) then some (genId d.toNat) else none
  | DepDecl.otherDep _ => none

/-- The `WStep` produced for definition `sd` at overall position `i`. -/
def mkStepAt (genId : Nat → String) (i : Nat) (sd : StepDef) : WStep :=
  { step_id := genId i, agent_type := sd.agent, task := sd.task, data := sd.data,
    dependencies := (sd.dependencies.getD []).filterMap (specResolveDecl genId i) }

/-- Step definitions with a mix of valid and invalid declared dependencies:
step 2 declares `[0, 2, 5, -1, "x"]`; only index 0 is valid. -/
def messyThird : StepDef :=
  { agent := "x", task := "c",
    dependencies := some [DepDecl.intDep 0, DepDecl.intDep 2, DepDecl.intDep 5,
      DepDecl.intDep (-1), DepDecl.otherDep "x"] }

def messyDefs : List StepDef :=
  [ { agent := "x", task := "a" },
    { agent := "x", task := "b" },
    messyThird ]

/-! ## Registry claims -/

/-- A registry whose only member of category `"x"` has status `"error"`. -/
def errOnlyReg : AgentRegistration :=
  { agent_id := "a1", agent_type := "x", capabilities := [],
    registered_at := 0, last_heartbeat := 0, status := "error" }

def errOnlyState : MgrState :=
  { agents := [("a1", errOnlyReg)], agent_types := [("x", ["a1"])] }

def errOnlyResp : AgentResponse := { success := true, agent_id := "a1" }

def errOnlyProc : String → ProcOutcome := fun _ => ProcOutcome.ok errOnlyResp

/-- A registry whose only member of category `"y"` is active. -/
def activeReg : AgentRegistration :=
  { agent_id := "b1", agent_type := "y", capabilities := [],
    registered_at := 0, last_heartbeat := 0, status := "active" }

def activeState : MgrState :=
  { agents := [("b1", activeReg)], agent_types := [("y", ["b1"])] }

def healthW : String → HealthOutcome := fun aid =>
  if aid = "a1" then HealthOutcome.raised "connection refused"
  else HealthOutcome.status "healthy"

def agentsW : List (String × AgentRegistration) := [("a1", errOnlyReg), ("b1", activeReg)]

/-- The `AgentRegistration` that `register_agent` creates. -/
def freshReg (agent_id agent_type : String) (capabilities : List String)
    (now : Nat) : AgentRegistration :=
  { agent_id := agent_id, agent_type := agent_type, capabilities := capabilities,
    registered_at := now, last_heartbeat := now, status := "active" }

/-- A message whose `recipient_id` is the empty string — no agent has that
id, yet the value is falsy in Python. -/
def emptyRecipMsg : Message :=
  { message_id := "m3", sender_id := "a1", recipient_id := some "",
    message_type := "task_request" }

def busMessage : Message :=
  { message_id := "m1", sender_id := "a1", message_type := "task_request" }

def busState : CommState :=
  { agents := ["a1", "b1", "c1"],
    message_queues := [("a1", []), ("b1", []), ("c1", [])],
    subscriptions := [("price_update", ["a1", "b1"])] }

/-! ## Invariants of the execution scan loop -/

/-- The result stored for a successfully completed step agrees with the
dispatch environment: the agent responded with `success` and the step's
`result` field holds that response's `data`. -/
def ResultOK (env : Env) (s : WStep) : Prop :=
  ∃ response : AgentResponse, env s.agent_type s.task s.data = QRes.resp response ∧
    response.success = true ∧ s.result = response.data

/-- The dispatch guard of the scan, as written in the source. -/
def readyToRun (completed : List String) (step : WStep) : Prop :=
  step.step_id ∉ completed ∧ step.status = "pending" ∧
    ∀ dep ∈ step.dependencies, dep ∈ completed

instance (completed : List String) (step : WStep) : Decidable (readyToRun completed step) := by
  unfold readyToRun
  infer_instance

/-- Invariant of the `execute_workflow` loop state between scans (holding
initially when every step is `pending` and `completed_steps` is empty):
`completed_steps` lists exactly the successfully completed steps; each
completed step stores an environment-matching result and has all its
dependencies completed; every step is `pending` or `completed`; and every
dispatch event on the trace was guarded by its snapshot, which is contained
in the current `completed_steps`. -/
def LoopInv (env : Env) (st : ExecSt) : Prop :=
  (∀ id ∈ st.completed, ∃ s ∈ st.steps, s.step_id = id ∧ s.status = "completed")
  ∧ (∀ s ∈ st.steps, s.status = "completed" →
      s.step_id ∈ st.completed ∧ ResultOK env s ∧ ∀ d ∈ s.dependencies, d ∈ st.completed)
  ∧ (∀ s ∈ st.steps, s.status = "pending" ∨ s.status = "completed")
  ∧ (∀ sid deps snap, Ev.started sid deps snap ∈ st.trace →
      (∀ d ∈ deps, d ∈ snap) ∧ ∀ d ∈ snap, d ∈ st.completed)

/-- What holds of the loop state when `execute_workflow` aborts on a step
failure with exception `e`. -/
def AbortFacts (env : Env) (e : String) (st : ExecSt) : Prop :=
  (∀ id ∈ st.completed, ∃ s ∈ st.steps, s.step_id = id ∧ s.status = "completed")
  ∧ (∀ s ∈ st.steps, s.status = "completed" →
      s.step_id ∈ st.completed ∧ ResultOK env s ∧ ∀ d ∈ s.dependencies, d ∈ st.completed)
  ∧ (∃ t, t ∈ st.steps ∧ t.status = "failed" ∧ t.error = some e ∧
      (∀ d ∈ t.dependencies, d ∈ st.completed) ∧
      (∀ s ∈ st.steps, s.status = "failed" → s = t) ∧
      ∃ pre, st.trace = pre ++ [Ev.started t.step_id t.dependencies st.completed,
        Ev.stepFailed t.step_id])
  ∧ (∀ s ∈ st.steps, s.status = "pending" ∨ s.status = "completed" ∨ s.status = "failed")
  ∧ (∀ sid deps snap, Ev.started sid deps snap ∈ st.trace →
      (∀ d ∈ deps, d ∈ snap) ∧ ∀ d ∈ snap, d ∈ st.completed)

/-- Shorthand for the state a scan produces. -/
def scanState (env : Env) (now : Nat) (st : ExecSt) : ExecSt :=
  ⟨(scanSteps env now st.steps st.completed st.results st.trace).steps,
   (scanSteps env now st.steps st.completed st.results st.trace).completed,
   (scanSteps env now st.steps st.completed st.results st.trace).results,
   (scanSteps env now st.steps st.completed st.results st.trace).trace⟩

/-- The loop postcondition: on `finished` and `fuelOut` the invariant holds;
on `aborted` either a dispatched step failed (abort facts) or the abort is
the deadlock exception and the invariant still holds (no failed step). -/
def PostFacts (env : Env) (res : LoopRes) : Prop :=
  match res with
  | LoopRes.finished st => LoopInv env st
  | LoopRes.fuelOut st => LoopInv env st
  | LoopRes.aborted e st =>
      AbortFacts env e st ∨
      (LoopInv env st ∧ e = "Workflow deadlock detected - no progress possible")

/-- The loop state at which the fresh sample execution aborts. -/
def abortSt : ExecSt := (execLoop sampleEnv 0 5 ⟨sampleWorkflow.steps, [], [], []⟩).state

/-- Step 1 of the sample workflow as it stands after its failed dispatch. -/
def failedStep1 : WStep :=
  { step_id := "step1", agent_type := "x", task := "boom", data := [],
    dependencies := ["step0"], status := "failed", result := none,
    error := some "Step failed: boom", started_at := some 0, completed_at := some 0 }

/-! ## Theorems -/

theorem alookup_ainsert_self {α : Type} (k : String) (v : α) :
    ∀ l : List (String × α), alookup k (ainsert k v l) = some v := by
  intro l
  induction l with
  | nil => simp [ainsert, alookup]
  | cons p rest ih =>
    by_cases h : p.1 = k
    · simp [ainsert, alookup, h]
    · simp [ainsert, alookup, h, ih]

theorem alookup_ainsert_ne {α : Type} (k j : String) (v : α) (hne : k ≠ j) :
    ∀ l : List (String × α), alookup j (ainsert k v l) = alookup j l := by
  intro l
  induction l with
  | nil => simp [ainsert, alookup, hne]
  | cons p rest ih =>
    by_cases h : p.1 = k
    · simp [ainsert, alookup, h, hne]
    · simp [ainsert, alookup, h, ih]

theorem ainsert_of_none {α : Type} (k : String) (v : α) :
    ∀ l : List (String × α), alookup k l = none → ainsert k v l = l ++ [(k, v)] := by
  intro l
  induction l with
  | nil => intro _; rfl
  | cons p rest ih =>
    intro h
    simp only [alookup] at h
    by_cases hk : p.1 = k
    · simp [hk] at h
    · simp only [ainsert, hk, if_false, List.cons_append, List.cons.injEq, true_and]
      exact ih (by simpa [hk] using h)

theorem alookup_append_of_none {α : Type} (k : String) (l₂ : List (String × α)) :
    ∀ l : List (String × α), alookup k l = none → alookup k (l ++ l₂) = alookup k l₂ := by
  intro l
  induction l with
  | nil => intro _; rfl
  | cons p rest ih =>
    intro h
    simp only [alookup] at h ⊢
    by_cases hk : p.1 = k
    · simp [hk] at h
    · simpa [hk] using ih (by simpa [hk] using h)

theorem aerase_append_of_none {α : Type} (k : String) (v : α) :
    ∀ l : List (String × α), alookup k l = none → aerase k (l ++ [(k, v)]) = l := by
  intro l
  induction l with
  | nil => simp [aerase]
  | cons p rest ih =>
    intro h
    simp only [alookup] at h
    by_cases hk : p.1 = k
    · simp [hk] at h
    · simp only [List.cons_append, aerase, hk, if_false, List.cons.injEq, true_and]
      exact ih (by simpa [hk] using h)

/-! ## Wrapper lemmas for `execute_workflow` -/

theorem execute_workflow_fuelOut_outcome (env : Env) (now fuel : Nat)
    (workflows : List (String × Workflow)) (workflow_id : String) (wf : Workflow) (st : ExecSt)
    (hlk : alookup workflow_id workflows = some wf)
    (hrun : execLoop env now fuel ⟨wf.steps, [], [], []⟩ = LoopRes.fuelOut st) :
    (execute_workflow env now fuel workflows workflow_id).2 = ExecOutcome.fuelOut := by
  simp only [execute_workflow, hlk, hrun]

theorem execute_workflow_aborted_eq (env : Env) (now fuel : Nat)
    (workflows : List (String × Workflow)) (workflow_id : String) (wf : Workflow)
    (e : String) (st : ExecSt)
    (hlk : alookup workflow_id workflows = some wf)
    (hrun : execLoop env now fuel ⟨wf.steps, [], [], []⟩ = LoopRes.aborted e st) :
    execute_workflow env now fuel workflows workflow_id
      = (ainsert workflow_id
          { wf with
            steps := st.steps
            status := "failed"
            started_at := some now
            completed_at := some now } workflows,
         ExecOutcome.error (MgrErr.raised e)) := by
  simp only [execute_workflow, hlk, hrun]

/-- One loop iteration from the stuck re-execution state scans without any
change and recurses on the very same state. -/
theorem stuck_fix (fuel : Nat) :
    execLoop sampleEnv 0 (fuel + 1) stuckSt = execLoop sampleEnv 0 fuel stuckSt := rfl

theorem stuck_fuelOut : ∀ fuel, execLoop sampleEnv 0 fuel stuckSt = LoopRes.fuelOut stuckSt
  | 0 => rfl
  | fuel + 1 => by rw [stuck_fix fuel]; exact stuck_fuelOut fuel

/-- C1: on the stored three-step workflow whose first execution fails at
step 1 (step 0 `completed`, step 2 left `pending`), a second
`execute_workflow` call never terminates: its first scan completes step 2,
making `completed_steps` non-empty, after which every further scan starts
zero new steps while step 2's completion keeps `len(completed_steps) == 0`
false — so neither the `WorkflowDeadlock` branch nor the exit condition is
ever reached and the loop spins forever, contradicting the claimed
termination guarantee. -/
theorem C1_rerun_deadlock_never_detected :
    (execute_workflow sampleEnv 0 5 sampleStore "w1").2
        = ExecOutcome.error (MgrErr.raised "Step failed: boom")
    ∧ ∀ fuel, (execute_workflow sampleEnv 0 fuel rerunStore "w1").2 = ExecOutcome.fuelOut := by
  constructor
  · rfl
  · intro fuel
    cases fuel with
    | zero =>
      exact execute_workflow_fuelOut_outcome sampleEnv 0 0 rerunStore "w1" rerunWf rerunSt
        rfl rfl
    | succ f =>
      refine execute_workflow_fuelOut_outcome sampleEnv 0 (f + 1) rerunStore "w1" rerunWf
        stuckSt rfl ?_
      rw [show execLoop sampleEnv 0 (f + 1) ⟨rerunWf.steps, [], [], []⟩
            = execLoop sampleEnv 0 f stuckSt from rfl]
      exact stuck_fuelOut f

theorem resolveDeps_range (genId : Nat → String) (k : Nat) :
    ∀ ds : List DepDecl,
      resolveDeps ((List.range (k + 1)).map genId) k ds
        = ds.filterMap (specResolveDecl genId k) := by
  intro ds
  induction ds with
  | nil => rfl
  | cons d rest ih =>
    cases d with
    | intDep d =>
      by_cases h : 0 ≤ d ∧ d < (k : Int)
      · have hlt : d.toNat < k + 1 := by omega
        have hget : (List.range (k + 1))[d.toNat]? = some d.toNat := List.getElem?_range hlt
        simp [resolveDeps, specResolveDecl, h, hget, List.filterMap_cons, ih]
      · simp [resolveDeps, specResolveDecl, h, List.filterMap_cons, ih]
    | otherDep s => simp [resolveDeps, specResolveDecl, List.filterMap_cons, ih]

theorem buildStepsAux_get? (genId : Nat → String) :
    ∀ (defs : List StepDef) (k j : Nat),
      (buildStepsAux genId k ((List.range k).map genId) defs).get? j
        = (defs.get? j).map (mkStepAt genId (k + j)) := by
  intro defs
  induction defs with
  | nil => intro k j; simp [buildStepsAux]
  | cons sd rest ih =>
    intro k j
    have hacc : (List.range k).map genId ++ [genId k] = (List.range (k + 1)).map genId := by
      rw [List.range_succ, List.map_append]
      rfl
    cases j with
    | zero =>
      simp only [buildStepsAux, hacc, List.get?_cons_zero, List.get?, Option.map_some']
      cases hdep : sd.dependencies with
      | none => simp [mkStepAt, hdep]
      | some ds => simp [mkStepAt, hdep, resolveDeps_range]
    | succ j =>
      simp only [buildStepsAux, hacc, List.get?_cons_succ, List.get?]
      rw [ih (k + 1) j]
      have : k + 1 + j = k + (j + 1) := by omega
      rw [this]

theorem buildSteps_get? (genId : Nat → String) (defs : List StepDef) (j : Nat) :
    (buildSteps genId defs).get? j = (defs.get? j).map (mkStepAt genId j) := by
  have h := buildStepsAux_get? genId defs 0 j
  simpa [buildSteps] using h

/-- C5: in `create_workflow`, the declared dependency list of the step at
position `i` is resolved entry-by-entry: an integer `d` with `0 ≤ d < i`
becomes the fresh id of the step at position `d`, and every other declared
dependency (non-integer, negative, equal to `i`, or greater) is dropped;
the workflow is still created and stored under its id, never rejected. -/
theorem C5_dependency_resolution_lenient
    (genId : Nat → String) (defs : List StepDef) (workflows : List (String × Workflow))
    (workflow_id : String) (now : Nat) (i : Nat) (sd : StepDef)
    (hdef : defs.get? i = some sd) :
    (∃ stp : WStep,
        (create_workflow genId workflow_id now defs).steps.get? i = some stp ∧
        stp.step_id = genId i ∧
        stp.dependencies = (sd.dependencies.getD []).filterMap (specResolveDecl genId i))
    ∧ alookup workflow_id (create_workflow_store genId workflow_id now workflows defs).1
        = some (create_workflow genId workflow_id now defs) := by
  constructor
  · refine ⟨mkStepAt genId i sd, ?_, rfl, rfl⟩
    show (buildSteps genId defs).get? i = some (mkStepAt genId i sd)
    rw [buildSteps_get?, hdef]
    rfl
  · exact alookup_ainsert_self workflow_id _ workflows

/-- C5 witness: on `messyDefs`, only the declared index 0 survives for step
2, resolved to step 0's id, and the workflow is stored. -/
theorem C5_dependency_resolution_lenient_witness :
    (∃ stp : WStep,
        (create_workflow sampleGenId "w9" 3 messyDefs).steps.get? 2 = some stp ∧
        stp.step_id = sampleGenId 2 ∧
        stp.dependencies
          = ((messyThird.dependencies).getD []).filterMap (specResolveDecl sampleGenId 2))
    ∧ alookup "w9" (create_workflow_store sampleGenId "w9" 3 [] messyDefs).1
        = some (create_workflow sampleGenId "w9" 3 messyDefs) :=
  C5_dependency_resolution_lenient sampleGenId messyDefs [] "w9" 3 2 messyThird rfl

/-- C10: in every workflow returned by `create_workflow` the dependency
graph is acyclic by construction: each step's resolved dependency list
contains only the fresh ids of steps at strictly earlier positions of the
same workflow — never the step's own id (given that the generated uuids are
distinct) and never an id absent from the workflow. -/
theorem C10_workflow_dependencies_acyclic
    (genId : Nat → String) (workflow_id : String) (now : Nat) (defs : List StepDef)
    (hinj : ∀ a b, a < defs.length → b < defs.length → genId a = genId b → a = b)
    (i : Nat) (stp : WStep)
    (hstp : (create_workflow genId workflow_id now defs).steps.get? i = some stp)
    (dep : String) (hdep : dep ∈ stp.dependencies) :
    (∃ j, j < i ∧ ∃ stq : WStep,
        (create_workflow genId workflow_id now defs).steps.get? j = some stq ∧
        stq.step_id = dep)
    ∧ dep ≠ stp.step_id := by
  have hsteps : (create_workflow genId workflow_id now defs).steps = buildSteps genId defs := rfl
  rw [hsteps] at hstp
  rw [buildSteps_get? genId defs i] at hstp
  cases hdefi : defs.get? i with
  | none => rw [hdefi] at hstp; exact absurd hstp (by simp)
  | some sd =>
    rw [hdefi] at hstp
    have hstp' : stp = mkStepAt genId i sd := by
      simpa using hstp.symm
    subst hstp'
    have hi : i < defs.length := List.get?_eq_some.mp hdefi |>.1
    simp only [mkStepAt, List.mem_filterMap] at hdep
    obtain ⟨decl, _, hres⟩ := hdep
    cases decl with
    | otherDep s => simp [specResolveDecl] at hres
    | intDep d =>
      simp only [specResolveDecl] at hres
      by_cases hcond : 0 ≤ d ∧ d < (i : Int)
      · rw [if_pos hcond] at hres
        have hdEq : dep = genId d.toNat := by simpa using hres.symm
        have hj : d.toNat < i := by omega
        constructor
        · refine ⟨d.toNat, hj, ?_⟩
          cases hdefj : defs.get? d.toNat with
          | none =>
            have : defs.length ≤ d.toNat := List.get?_eq_none.mp hdefj
            omega
          | some sdj =>
            refine ⟨mkStepAt genId d.toNat sdj, ?_, ?_⟩
            · rw [hsteps, buildSteps_get? genId defs d.toNat, hdefj]
              rfl
            · exact hdEq.symm
        · intro hEq
          have : d.toNat = i := hinj d.toNat i (by omega) hi (by rw [← hdEq]; exact hEq)
          omega
      · rw [if_neg hcond] at hres
        exact absurd hres (by simp)

/-- C10 witness: in the sample workflow (`hinj` holds for `sampleGenId` on
three positions), step 1's dependency `step0` is exactly step 0's id and
differs from step 1's own id. -/
theorem C10_workflow_dependencies_acyclic_witness :
    ((∃ j, j < 1 ∧ ∃ stq : WStep,
        (create_workflow sampleGenId "w1" 0 sampleDefs).steps.get? j = some stq ∧
        stq.step_id = "step0")
      ∧ "step0" ≠ (sampleWorkflow.steps.get ⟨1, by decide⟩).step_id) := by
  have h := C10_workflow_dependencies_acyclic sampleGenId "w1" 0 sampleDefs
    (by
      intro a b ha hb hg
      have ha3 : a < 3 := by simpa [sampleDefs] using ha
      have hb3 : b < 3 := by simpa [sampleDefs] using hb
      simp only [sampleGenId] at hg
      interval_cases a <;> interval_cases b <;> first | rfl | (revert hg; decide))
    1 (sampleWorkflow.steps.get ⟨1, by decide⟩) (by rfl) "step0" (by decide)
  exact h

/-- C4 counterexample: the category `"x"` has zero members with status
`"active"` (its only member has status `"error"`), yet `query_agent` does
*not* fail with `NoAgentAvailable` — it selects the error-status member and
returns its response, refuting both halves of the claim. -/
theorem C4_counterexample_error_member_selected :
    (∀ p ∈ errOnlyState.agents, p.2.status ≠ "active")
    ∧ (query_agent errOnlyState errOnlyProc 0 "x").2 = Except.ok errOnlyResp := by
  constructor
  · decide
  · rfl

/-- C4 (amended): `query_agent` fails with `NoAgentAvailable`
(`ResourceNotFoundError`) iff the category has zero registered members *of
any status*; otherwise it selects the first member of the category's id set
regardless of its registration status — members with status `"error"` can
be selected — and invokes its `process` method under the deadline,
refreshing the member's heartbeat when a response arrives in time. -/
theorem C4_no_agent_iff_category_empty
    (st : MgrState) (proc : String → ProcOutcome) (now : Nat) (agent_type : String) :
    ((∃ msg rid, (query_agent st proc now agent_type).2
        = Except.error (MgrErr.resourceNotFound msg "agent_type" rid))
      ↔ (alookup agent_type st.agent_types).getD [] = [])
    ∧ (∀ sel rest, alookup agent_type st.agent_types = some (sel :: rest) →
        ∀ reg, alookup sel st.agents = some reg →
        ∀ response, proc sel = ProcOutcome.ok response →
        query_agent st proc now agent_type
          = ({ st with agents := ainsert sel { reg with last_heartbeat := now } st.agents },
             Except.ok response)) := by
  constructor
  · constructor
    · intro h
      obtain ⟨msg, rid, hmsg⟩ := h
      by_contra hne
      cases hids : (alookup agent_type st.agent_types).getD [] with
      | nil => exact hne hids
      | cons sel rest =>
        simp only [query_agent, hids] at hmsg
        cases hreg : alookup sel st.agents with
        | none => rw [hreg] at hmsg; exact absurd hmsg (by simp)
        | some reg =>
          rw [hreg] at hmsg
          cases hproc : proc sel with
          | ok response => rw [hproc] at hmsg; exact absurd hmsg (by simp)
          | timeout => rw [hproc] at hmsg; exact absurd hmsg (by simp)
          | raised e => rw [hproc] at hmsg; exact absurd hmsg (by simp)
    · intro h
      refine ⟨"No agents of type '" ++ agent_type ++ "' available", agent_type, ?_⟩
      simp only [query_agent, h]
  · intro sel rest hids reg hreg response hproc
    simp only [query_agent, hids, Option.getD_some, hreg, hproc]

/-- C4 witness: a category with one active member; the error branch does not
fire and the member's response is returned with a refreshed heartbeat. -/
theorem C4_no_agent_iff_category_empty_witness :
    query_agent activeState errOnlyProc 7 "y"
      = ({ activeState with
           agents := ainsert "b1" { activeReg with last_heartbeat := 7 } activeState.agents },
         Except.ok errOnlyResp) :=
  (C4_no_agent_iff_category_empty activeState errOnlyProc 7 "y").2
    "b1" [] rfl activeReg rfl errOnlyResp rfl

/-- C6: in one health-monitor cycle, each registration is rewritten from its
own agent's health check alone: a `"healthy"` status yields status
`"active"` with the heartbeat refreshed to `now`; any other returned status,
or a raised health check, yields status `"error"` with every other field —
the heartbeat in particular — unchanged. The final conjunct is isolation:
the entry at any position `j` depends only on the health outcome of its own
agent, so one agent's failure never changes another agent's registration. -/
theorem C6_health_cycle_updates
    (health : String → HealthOutcome) (now : Nat)
    (agents : List (String × AgentRegistration))
    (i : Nat) (aid : String) (reg : AgentRegistration)
    (hget : agents.get? i = some (aid, reg)) :
    ((health reg.agent_id = HealthOutcome.status "healthy" →
        (health_check_cycle health now agents).get? i
          = some (aid, { reg with status := "active", last_heartbeat := now }))
      ∧ (∀ s, s ≠ "healthy" → health reg.agent_id = HealthOutcome.status s →
          (health_check_cycle health now agents).get? i
            = some (aid, { reg with status := "error" }))
      ∧ (∀ e, health reg.agent_id = HealthOutcome.raised e →
          (health_check_cycle health now agents).get? i
            = some (aid, { reg with status := "error" })))
    ∧ (∀ (health₂ : String → HealthOutcome) (j : Nat) (q : String × AgentRegistration),
        agents.get? j = some q → health₂ q.2.agent_id = health q.2.agent_id →
        (health_check_cycle health₂ now agents).get? j
          = (health_check_cycle health now agents).get? j) := by
  have hcell : ∀ (h₂ : String → HealthOutcome) (j : Nat) (a : String) (r : AgentRegistration),
      agents.get? j = some (a, r) →
      (health_check_cycle h₂ now agents).get? j = some (a, healthCheckStep h₂ now r) := by
    intro h₂ j a r hj
    simp only [List.get?_eq_getElem?] at hj ⊢
    simp only [health_check_cycle, List.getElem?_map, hj, Option.map_some']
  constructor
  · refine ⟨?_, ?_, ?_⟩
    · intro hh
      rw [hcell health i aid reg hget]
      simp [healthCheckStep, hh]
    · intro s hs hh
      rw [hcell health i aid reg hget]
      simp [healthCheckStep, hh, hs]
    · intro e hh
      rw [hcell health i aid reg hget]
      simp [healthCheckStep, hh]
  · intro health₂ j q hq hagree
    obtain ⟨a, r⟩ := q
    rw [hcell health₂ j a r hq, hcell health j a r hq]
    simp only [healthCheckStep, hagree]

/-- C6 witness: two registrations; the first agent's check raises while the
second returns healthy — the first becomes `error` with its stale heartbeat
kept, and replacing the second agent's outcome with an equal one leaves its
entry unchanged. -/
theorem C6_health_cycle_updates_witness :
    ((healthW errOnlyReg.agent_id = HealthOutcome.status "healthy" →
        (health_check_cycle healthW 9 agentsW).get? 0
          = some ("a1", { errOnlyReg with status := "active", last_heartbeat := 9 }))
      ∧ (∀ s, s ≠ "healthy" → healthW errOnlyReg.agent_id = HealthOutcome.status s →
          (health_check_cycle healthW 9 agentsW).get? 0
            = some ("a1", { errOnlyReg with status := "error" }))
      ∧ (∀ e, healthW errOnlyReg.agent_id = HealthOutcome.raised e →
          (health_check_cycle healthW 9 agentsW).get? 0
            = some ("a1", { errOnlyReg with status := "error" })))
    ∧ (∀ (health₂ : String → HealthOutcome) (j : Nat) (q : String × AgentRegistration),
        agentsW.get? j = some q → health₂ q.2.agent_id = healthW q.2.agent_id →
        (health_check_cycle health₂ 9 agentsW).get? j
          = (health_check_cycle healthW 9 agentsW).get? j) :=
  C6_health_cycle_updates healthW 9 agentsW 0 "a1" errOnlyReg rfl

/-- C8: from a state with no agent of category `agent_type` and an unused
`agent_id`, `register_agent` succeeds; `unregister_agent` of that id then
restores the original state exactly (the category index entry, emptied, is
deleted), so a subsequent `query_agent` for the category fails with
`NoAgentAvailable` (`ResourceNotFoundError`); and `unregister_agent` of any
id absent from the registry is an idempotent no-op. -/
theorem C8_register_unregister_query_roundtrip
    (st : MgrState) (agent_id agent_type : String) (capabilities : List String)
    (now : Nat) (proc : String → ProcOutcome)
    (hid : alookup agent_id st.agents = none)
    (hty : alookup agent_type st.agent_types = none) :
    (∃ st₁, register_agent st agent_id agent_type capabilities now
        = Except.ok (st₁, agent_id)
      ∧ unregister_agent st₁ agent_id = st
      ∧ (query_agent (unregister_agent st₁ agent_id) proc now agent_type).2
          = Except.error (MgrErr.resourceNotFound
              ("No agents of type '" ++ agent_type ++ "' available") "agent_type" agent_type))
    ∧ ∀ aid, alookup aid st.agents = none → unregister_agent st aid = st := by
  have hregEq : register_agent st agent_id agent_type capabilities now
      = Except.ok
          ({ agents := st.agents ++ [(agent_id, freshReg agent_id agent_type capabilities now)],
             agent_types := st.agent_types ++ [(agent_type, [agent_id])] }, agent_id) := by
    simp only [register_agent, hid, hty]
    rw [ainsert_of_none agent_id _ st.agents hid]
    rw [ainsert_of_none agent_type _ st.agent_types hty]
    simp [freshReg]
  have hlk₁ : alookup agent_id
      (st.agents ++ [(agent_id, freshReg agent_id agent_type capabilities now)])
      = some (freshReg agent_id agent_type capabilities now) := by
    rw [alookup_append_of_none agent_id _ st.agents hid]
    simp [alookup]
  have hlk₂ : alookup agent_type (st.agent_types ++ [(agent_type, [agent_id])])
      = some [agent_id] := by
    rw [alookup_append_of_none agent_type _ st.agent_types hty]
    simp [alookup]
  have hback : unregister_agent
      { agents := st.agents ++ [(agent_id, freshReg agent_id agent_type capabilities now)],
        agent_types := st.agent_types ++ [(agent_type, [agent_id])] } agent_id = st := by
    simp only [unregister_agent, hlk₁]
    simp only [freshReg]
    simp only [hlk₂]
    have hfil : List.filter (fun i => i != agent_id) [agent_id] = [] := by simp
    rw [hfil]
    rw [aerase_append_of_none agent_type _ st.agent_types hty,
      aerase_append_of_none agent_id _ st.agents hid]
    simp
  constructor
  · refine ⟨_, hregEq, hback, ?_⟩
    rw [hback]
    simp only [query_agent, hty, Option.getD_none]
  · intro aid haid
    simp [unregister_agent, haid]

/-- C8 witness: the round trip on the empty registry. -/
theorem C8_register_unregister_query_roundtrip_witness :
    (∃ st₁, register_agent ⟨[], []⟩ "a" "t" [] 1 = Except.ok (st₁, "a")
      ∧ unregister_agent st₁ "a" = (⟨[], []⟩ : MgrState)
      ∧ (query_agent (unregister_agent st₁ "a") errOnlyProc 1 "t").2
          = Except.error (MgrErr.resourceNotFound
              ("No agents of type '" ++ "t" ++ "' available") "agent_type" "t"))
    ∧ ∀ aid, alookup aid (MgrState.agents ⟨[], []⟩) = none →
        unregister_agent ⟨[], []⟩ aid = (⟨[], []⟩ : MgrState) :=
  C8_register_unregister_query_roundtrip ⟨[], []⟩ "a" "t" [] 1 errOnlyProc rfl rfl

/-! ## Message-bus claims -/

/-- Specification of the broadcast loop: when every recipient id has a queue
and the id list is duplicate-free, the loop returns `true`, appends to each
recipient's queue exactly one copy of the message with `recipient_id`
rewritten to that recipient, and leaves every other queue untouched. -/
theorem broadcastLoop_spec (message : Message) :
    ∀ (ids : List String) (queues : List (String × List Message)),
      ids.Nodup →
      (∀ aid ∈ ids, (alookup aid queues).isSome) →
      (broadcastLoop message ids queues).2 = true
      ∧ (∀ aid ∈ ids, ∀ q, alookup aid queues = some q →
          alookup aid (broadcastLoop message ids queues).1
            = some (q ++ [{ message with recipient_id := some aid }]))
      ∧ (∀ k, k ∉ ids → alookup k (broadcastLoop message ids queues).1 = alookup k queues) := by
  intro ids
  induction ids with
  | nil =>
    intro queues _ _
    exact ⟨rfl, by intro aid h; exact absurd h (List.not_mem_nil aid), by intro k _; rfl⟩
  | cons a rest ih =>
    intro queues hnd hq
    have ha : (alookup a queues).isSome := hq a (List.mem_cons_self a rest)
    obtain ⟨qa, hqa⟩ : ∃ qa, alookup a queues = some qa :=
      Option.isSome_iff_exists.mp ha
    have hrest : ∀ aid ∈ rest, (alookup aid
        (ainsert a (qa ++ [{ message with recipient_id := some a }]) queues)).isSome := by
      intro aid haid
      by_cases hcase : a = aid
      · rw [hcase, alookup_ainsert_self]
        rfl
      · rw [alookup_ainsert_ne a aid _ hcase]
        exact hq aid (List.mem_cons_of_mem a haid)
    have hndr : rest.Nodup := (List.nodup_cons.mp hnd).2
    have hniq : a ∉ rest := (List.nodup_cons.mp hnd).1
    have hstep : broadcastLoop message (a :: rest) queues
        = broadcastLoop message rest
            (ainsert a (qa ++ [{ message with recipient_id := some a }]) queues) := by
      simp only [broadcastLoop, hqa]
    obtain ⟨ih1, ih2, ih3⟩ := ih
      (ainsert a (qa ++ [{ message with recipient_id := some a }]) queues) hndr hrest
    refine ⟨by rw [hstep]; exact ih1, ?_, ?_⟩
    · intro aid haid q hlq
      rw [hstep]
      rcases List.mem_cons.mp haid with hEq | hmem
      · subst hEq
        have hq' : qa = q := by rw [hqa] at hlq; exact Option.some_injective _ hlq
        subst hq'
        rw [ih3 aid hniq, alookup_ainsert_self]
      · have hne : a ≠ aid := by
          intro hEq; exact hniq (hEq ▸ hmem)
        refine ih2 aid hmem q ?_
        rw [alookup_ainsert_ne a aid _ hne, hlq]
    · intro k hk
      rw [hstep, ih3 k (fun hmem => hk (List.mem_cons_of_mem a hmem))]
      exact alookup_ainsert_ne a k _ (fun hEq => hk (hEq ▸ List.mem_cons_self a rest)) queues

/-- C7 counterexample: `""` is not a registered agent id, yet a message with
`recipient_id = some ""` is *not* dropped with `false`: the source's
`if message.recipient_id:` test is false for the empty string, so the call
takes the broadcast branch — here it enqueues a copy onto `a1`'s queue
(among others) and returns `true`, refuting the claim's unknown-recipient
clause at this input. -/
theorem C7_counterexample_empty_string_recipient :
    "" ∉ busState.agents
    ∧ emptyRecipMsg.recipient_id = some ""
    ∧ (send_message busState emptyRecipMsg).2 = true
    ∧ alookup "a1" (send_message busState emptyRecipMsg).1.message_queues
        = some [{ emptyRecipMsg with recipient_id := some "a1" }] := by
  refine ⟨by decide, rfl, rfl, by decide⟩

/-- C7 (amended): `send_message` on a message whose `recipient_id` is unset
— or equal to the empty string, which Python's truthiness test cannot
distinguish from unset — enqueues exactly one copy onto the inbound queue of
every registered endpoint, each copy's `recipient_id` rewritten to that
endpoint's id (all other queues untouched), and returns `true`; with
`recipient_id` set to a non-empty id of an unknown agent it enqueues nothing
and returns `false`. -/
theorem C7_send_message_broadcast_and_unknown_amended
    (st : CommState) (message : Message)
    (hnd : st.agents.Nodup)
    (hq : ∀ aid ∈ st.agents, (alookup aid st.message_queues).isSome) :
    ((message.recipient_id = none ∨ message.recipient_id = some "") →
      (send_message st message).2 = true
      ∧ (∀ aid ∈ st.agents, ∀ q, alookup aid st.message_queues = some q →
          alookup aid (send_message st message).1.message_queues
            = some (q ++ [{ message with recipient_id := some aid }]))
      ∧ (∀ k, k ∉ st.agents →
          alookup k (send_message st message).1.message_queues
            = alookup k st.message_queues))
    ∧ (∀ r, message.recipient_id = some r → r ≠ "" → r ∉ st.agents →
        send_message st message = (st, false)) := by
  constructor
  · intro hbr
    obtain ⟨h1, h2, h3⟩ := broadcastLoop_spec message st.agents st.message_queues hnd hq
    have hsend : send_message st message
        = ({ st with message_queues := (broadcastLoop message st.agents st.message_queues).1 },
           (broadcastLoop message st.agents st.message_queues).2) := by
      rcases hbr with hnone | hempty
      · simp only [send_message, hnone]
      · simp [send_message, hempty]
    rw [hsend]
    exact ⟨h1, fun aid ha q hlq => h2 aid ha q hlq, fun k hk => h3 k hk⟩
  · intro r hr hne hmem
    simp [send_message, hr, hne, hmem]

/-- C7 witness (amended): the three-endpoint broadcast (for the unset
recipient form) and the unknown non-empty recipient case, on `busState`. -/
theorem C7_send_message_broadcast_and_unknown_amended_witness :
    (((busMessage.recipient_id = none ∨ busMessage.recipient_id = some "") →
      (send_message busState busMessage).2 = true
      ∧ (∀ aid ∈ busState.agents, ∀ q, alookup aid busState.message_queues = some q →
          alookup aid (send_message busState busMessage).1.message_queues
            = some (q ++ [{ busMessage with recipient_id := some aid }]))
      ∧ (∀ k, k ∉ busState.agents →
          alookup k (send_message busState busMessage).1.message_queues
            = alookup k busState.message_queues))
    ∧ (∀ r, busMessage.recipient_id = some r → r ≠ "" → r ∉ busState.agents →
        send_message busState busMessage = (busState, false))) :=
  C7_send_message_broadcast_and_unknown_amended busState busMessage (by decide) (by decide)

/-- Specification of the per-subscriber loop of `publish_event`: with a
duplicate-free subscriber list whose non-sender members all have queues, the
loop succeeds, appends exactly one recipient-rewritten copy to each
non-sender subscriber's queue, and leaves the sender's queue and every
non-subscriber queue untouched. -/
theorem publishLoop_spec (message : Message) (sender_id : String) :
    ∀ (subs : List String) (queues : List (String × List Message)),
      subs.Nodup →
      (∀ aid ∈ subs, aid ≠ sender_id → (alookup aid queues).isSome) →
      ∃ queues₂, publishLoop message sender_id subs queues = some queues₂
      ∧ (∀ aid ∈ subs, aid ≠ sender_id → ∀ q, alookup aid queues = some q →
          alookup aid queues₂ = some (q ++ [{ message with recipient_id := some aid }]))
      ∧ (∀ k, k ∉ subs ∨ k = sender_id → alookup k queues₂ = alookup k queues) := by
  intro subs
  induction subs with
  | nil =>
    intro queues _ _
    exact ⟨queues, rfl, by intro aid h; exact absurd h (List.not_mem_nil aid),
      by intro k _; rfl⟩
  | cons a rest ih =>
    intro queues hnd hq
    have hndr : rest.Nodup := (List.nodup_cons.mp hnd).2
    have hniq : a ∉ rest := (List.nodup_cons.mp hnd).1
    by_cases hsend : a = sender_id
    · have hstep : publishLoop message sender_id (a :: rest) queues
          = publishLoop message sender_id rest queues := by
        simp [publishLoop, hsend]
      obtain ⟨queues₂, hq2, h2, h3⟩ := ih queues hndr
        (fun aid haid hne => hq aid (List.mem_cons_of_mem a haid) hne)
      refine ⟨queues₂, by rw [hstep]; exact hq2, ?_, ?_⟩
      · intro aid haid hne q hlq
        rcases List.mem_cons.mp haid with hEq | hmem
        · exact absurd (hEq.trans hsend) hne
        · exact h2 aid hmem hne q hlq
      · intro k hk
        refine h3 k ?_
        rcases hk with hk | hk
        · exact Or.inl (fun hmem => hk (List.mem_cons_of_mem a hmem))
        · exact Or.inr hk
    · obtain ⟨qa, hqa⟩ : ∃ qa, alookup a queues = some qa :=
        Option.isSome_iff_exists.mp (hq a (List.mem_cons_self a rest) hsend)
      have hstep : publishLoop message sender_id (a :: rest) queues
          = publishLoop message sender_id rest
              (ainsert a (qa ++ [{ message with recipient_id := some a }]) queues) := by
        simp [publishLoop, hsend, hqa]
      have hrest : ∀ aid ∈ rest, aid ≠ sender_id → (alookup aid
          (ainsert a (qa ++ [{ message with recipient_id := some a }]) queues)).isSome := by
        intro aid haid hne
        by_cases hcase : a = aid
        · rw [hcase, alookup_ainsert_self]
          rfl
        · rw [alookup_ainsert_ne a aid _ hcase]
          exact hq aid (List.mem_cons_of_mem a haid) hne
      obtain ⟨queues₂, hq2, h2, h3⟩ := ih
        (ainsert a (qa ++ [{ message with recipient_id := some a }]) queues) hndr hrest
      refine ⟨queues₂, by rw [hstep]; exact hq2, ?_, ?_⟩
      · intro aid haid hne q hlq
        rcases List.mem_cons.mp haid with hEq | hmem
        · subst hEq
          have hq' : qa = q := by rw [hqa] at hlq; exact Option.some_injective _ hlq
          subst hq'
          rw [h3 aid (Or.inl hniq), alookup_ainsert_self]
        · have hne' : a ≠ aid := fun hEq => hniq (hEq ▸ hmem)
          refine h2 aid hmem hne q ?_
          rw [alookup_ainsert_ne a aid _ hne', hlq]
      · intro k hk
        have hka : a ≠ k := by
          rcases hk with hk | hk
          · exact fun hEq => hk (hEq ▸ List.mem_cons_self a rest)
          · exact fun hEq => hsend (hEq.trans hk)
        have hk' : k ∉ rest ∨ k = sender_id := by
          rcases hk with hk | hk
          · exact Or.inl (fun hmem => hk (List.mem_cons_of_mem a hmem))
          · exact Or.inr hk
        rw [h3 k hk']
        exact alookup_ainsert_ne a k _ hka queues

/-- C9: a broadcast `send_message` delivers to *every* registered endpoint,
the sender included when it is registered; `publish_event` by contrast never
enqueues to the sender — each subscriber of the topic other than the sender
receives exactly one recipient-rewritten copy of the status-update event
message, the sender's queue is unchanged even if the sender is subscribed —
and when the topic has no subscription entry the call returns with the bus
state completely unchanged. -/
theorem C9_broadcast_includes_sender_publish_skips_sender
    (st : CommState) (message : Message)
    (event_type : String) (data : Payload) (sender_id message_id : String) (now : Nat)
    (hnd : st.agents.Nodup)
    (hq : ∀ aid ∈ st.agents, (alookup aid st.message_queues).isSome) :
    (message.recipient_id = none → message.sender_id ∈ st.agents →
      ∀ q, alookup message.sender_id st.message_queues = some q →
        alookup message.sender_id (send_message st message).1.message_queues
          = some (q ++ [{ message with recipient_id := some message.sender_id }]))
    ∧ (∀ subs, alookup event_type st.subscriptions = some subs → subs.Nodup →
        (∀ aid ∈ subs, aid ∈ st.agents) →
        ∃ st₂, publish_event st event_type data sender_id message_id now = some st₂
          ∧ (∀ aid ∈ subs, aid ≠ sender_id → ∀ q, alookup aid st.message_queues = some q →
              alookup aid st₂.message_queues
                = some (q ++ [{ eventMessage event_type data sender_id message_id now with
                    recipient_id := some aid }]))
          ∧ alookup sender_id st₂.message_queues = alookup sender_id st.message_queues)
    ∧ (alookup event_type st.subscriptions = none →
        publish_event st event_type data sender_id message_id now = some st) := by
  refine ⟨?_, ?_, ?_⟩
  · intro hnone hmem q hlq
    obtain ⟨_, h2, _⟩ := broadcastLoop_spec message st.agents st.message_queues hnd hq
    have hsend : (send_message st message).1
        = { st with message_queues := (broadcastLoop message st.agents st.message_queues).1 } := by
      simp only [send_message, hnone]
    rw [hsend]
    exact h2 message.sender_id hmem q hlq
  · intro subs hsubs hndsubs hreg
    obtain ⟨queues₂, hq2, h2, h3⟩ := publishLoop_spec
      (eventMessage event_type data sender_id message_id now) sender_id subs
      st.message_queues hndsubs
      (fun aid haid _ => hq aid (hreg aid haid))
    refine ⟨{ st with message_queues := queues₂ }, ?_, ?_, ?_⟩
    · simp only [publish_event, hsubs, hq2]
    · intro aid haid hne q hlq
      exact h2 aid haid hne q hlq
    · exact h3 sender_id (Or.inr rfl)
  · intro habs
    simp only [publish_event, habs]

/-- C9 witness: on `busState` (sender `a1` registered and subscribed to
`price_update` along with `b1`): the broadcast reaches `a1` itself, while
`publish_event` delivers only to `b1` and leaves `a1`'s queue unchanged;
an unsubscribed topic is a no-op. -/
theorem C9_broadcast_includes_sender_publish_skips_sender_witness :
    ((busMessage.recipient_id = none → busMessage.sender_id ∈ busState.agents →
      ∀ q, alookup busMessage.sender_id busState.message_queues = some q →
        alookup busMessage.sender_id (send_message busState busMessage).1.message_queues
          = some (q ++ [{ busMessage with recipient_id := some busMessage.sender_id }]))
    ∧ (∀ subs, alookup "price_update" busState.subscriptions = some subs → subs.Nodup →
        (∀ aid ∈ subs, aid ∈ busState.agents) →
        ∃ st₂, publish_event busState "price_update" [("price", "5")] "a1" "m2" 4 = some st₂
          ∧ (∀ aid ∈ subs, aid ≠ "a1" → ∀ q, alookup aid busState.message_queues = some q →
              alookup aid st₂.message_queues
                = some (q ++ [{ eventMessage "price_update" [("price", "5")] "a1" "m2" 4 with
                    recipient_id := some aid }]))
          ∧ alookup "a1" st₂.message_queues = alookup "a1" busState.message_queues)
    ∧ (alookup "missing_topic" busState.subscriptions = none →
        publish_event busState "missing_topic" [("price", "5")] "a1" "m2" 4 = some busState)) := by
  have h₁ := C9_broadcast_includes_sender_publish_skips_sender busState busMessage
    "price_update" [("price", "5")] "a1" "m2" 4 (by decide) (by decide)
  have h₂ := C9_broadcast_includes_sender_publish_skips_sender busState busMessage
    "missing_topic" [("price", "5")] "a1" "m2" 4 (by decide) (by decide)
  exact ⟨h₁.1, h₁.2.1, h₂.2.2⟩

/-- One scan never changes the step ids (steps are mutated in place). -/
theorem scan_map_id (env : Env) (now : Nat) :
    ∀ (steps : List WStep) (completed : List String)
      (results : List (String × Option Payload)) (trace : List Ev),
      (scanSteps env now steps completed results trace).steps.map WStep.step_id
        = steps.map WStep.step_id := by
  intro steps
  induction steps with
  | nil => intro completed results trace; rfl
  | cons step rest ih =>
    intro completed results trace
    by_cases hg : step.step_id ∉ completed ∧ step.status = "pending" ∧
        ∀ dep ∈ step.dependencies, dep ∈ completed
    · rw [scanSteps, if_pos hg]
      cases henv : env step.agent_type step.task step.data with
      | resp response =>
        cases hsucc : response.success with
        | true => simp [henv, hsucc, List.map_cons, ih]
        | false => simp [henv, hsucc, List.map_cons]
      | raised e => simp [henv, List.map_cons]
    · rw [scanSteps, if_neg hg]
      simp [List.map_cons, ih]

/-- One scan only appends to `completed_steps`. -/
theorem scan_completed_mono (env : Env) (now : Nat) :
    ∀ (steps : List WStep) (completed : List String)
      (results : List (String × Option Payload)) (trace : List Ev),
      ∃ Δ, (scanSteps env now steps completed results trace).completed = completed ++ Δ := by
  intro steps
  induction steps with
  | nil => intro completed results trace; exact ⟨[], by simp [scanSteps]⟩
  | cons step rest ih =>
    intro completed results trace
    by_cases hg : step.step_id ∉ completed ∧ step.status = "pending" ∧
        ∀ dep ∈ step.dependencies, dep ∈ completed
    · rw [scanSteps, if_pos hg]
      cases henv : env step.agent_type step.task step.data with
      | resp response =>
        cases hsucc : response.success with
        | true =>
          obtain ⟨Δ, hΔ⟩ := ih (completed ++ [step.step_id])
            (results ++ [(step.step_id, response.data)])
            ((trace ++ [Ev.started step.step_id step.dependencies completed])
              ++ [Ev.stepCompleted step.step_id])
          refine ⟨step.step_id :: Δ, ?_⟩
          simp only [henv, hsucc]
          simpa using hΔ
        | false => exact ⟨[], by simp [henv, hsucc]⟩
      | raised e => exact ⟨[], by simp [henv]⟩
    · rw [scanSteps, if_neg hg]
      simpa using ih completed results trace

/-- A step that is not `pending` is passed through a scan unchanged. -/
theorem scan_preserves_nonpending (env : Env) (now : Nat) :
    ∀ (steps : List WStep) (completed : List String)
      (results : List (String × Option Payload)) (trace : List Ev),
      ∀ s ∈ steps, s.status ≠ "pending" →
        s ∈ (scanSteps env now steps completed results trace).steps := by
  intro steps
  induction steps with
  | nil => intro completed results trace s hs; exact absurd hs (List.not_mem_nil s)
  | cons step rest ih =>
    intro completed results trace s hs hstat
    by_cases hg : step.step_id ∉ completed ∧ step.status = "pending" ∧
        ∀ dep ∈ step.dependencies, dep ∈ completed
    · have hsrest : s ∈ rest := by
        rcases List.mem_cons.mp hs with hEq | hmem
        · exact absurd (hEq ▸ hg.2.1) hstat
        · exact hmem
      rw [scanSteps, if_pos hg]
      cases henv : env step.agent_type step.task step.data with
      | resp response =>
        cases hsucc : response.success with
        | true =>
          simp only [henv, hsucc]
          exact List.mem_cons_of_mem _ (ih _ _ _ s hsrest hstat)
        | false =>
          simp only [henv, hsucc]
          exact List.mem_cons_of_mem _ hsrest
      | raised e =>
        simp only [henv]
        exact List.mem_cons_of_mem _ hsrest
    · rw [scanSteps, if_neg hg]
      rcases List.mem_cons.mp hs with hEq | hmem
      · exact hEq ▸ List.mem_cons_self _ _
      · exact List.mem_cons_of_mem _ (ih _ _ _ s hmem hstat)

theorem scan_cons_success (env : Env) (now : Nat) (step : WStep) (rest : List WStep)
    (completed : List String) (results : List (String × Option Payload)) (trace : List Ev)
    (response : AgentResponse)
    (hg : readyToRun completed step)
    (henv : env step.agent_type step.task step.data = QRes.resp response)
    (hsucc : response.success = true) :
    scanSteps env now (step :: rest) completed results trace
      = { scanSteps env now rest (completed ++ [step.step_id])
            (results ++ [(step.step_id, response.data)])
            ((trace ++ [Ev.started step.step_id step.dependencies completed])
              ++ [Ev.stepCompleted step.step_id]) with
          steps := { step with
              status := "completed"
              result := response.data
              started_at := some now
              completed_at := some now }
            :: (scanSteps env now rest (completed ++ [step.step_id])
                  (results ++ [(step.step_id, response.data)])
                  ((trace ++ [Ev.started step.step_id step.dependencies completed])
                    ++ [Ev.stepCompleted step.step_id])).steps } := by
  obtain ⟨hg1, hg2, hg3⟩ := hg
  rw [scanSteps, if_pos ⟨hg1, hg2, hg3⟩]
  simp [henv, hsucc]

theorem scan_cons_fail (env : Env) (now : Nat) (step : WStep) (rest : List WStep)
    (completed : List String) (results : List (String × Option Payload)) (trace : List Ev)
    (response : AgentResponse)
    (hg : readyToRun completed step)
    (henv : env step.agent_type step.task step.data = QRes.resp response)
    (hsucc : response.success = false) :
    scanSteps env now (step :: rest) completed results trace
      = ⟨{ step with
            status := "failed"
            error := some ("Step failed: " ++ optStr response.error)
            started_at := some now
            completed_at := some now } :: rest,
          completed, results,
          (trace ++ [Ev.started step.step_id step.dependencies completed])
            ++ [Ev.stepFailed step.step_id],
          some ("Step failed: " ++ optStr response.error)⟩ := by
  obtain ⟨hg1, hg2, hg3⟩ := hg
  rw [scanSteps, if_pos ⟨hg1, hg2, hg3⟩]
  simp [henv, hsucc]

theorem scan_cons_raised (env : Env) (now : Nat) (step : WStep) (rest : List WStep)
    (completed : List String) (results : List (String × Option Payload)) (trace : List Ev)
    (e : String)
    (hg : readyToRun completed step)
    (henv : env step.agent_type step.task step.data = QRes.raised e) :
    scanSteps env now (step :: rest) completed results trace
      = ⟨{ step with
            status := "failed"
            error := some e
            started_at := some now
            completed_at := some now } :: rest,
          completed, results,
          (trace ++ [Ev.started step.step_id step.dependencies completed])
            ++ [Ev.stepFailed step.step_id],
          some e⟩ := by
  obtain ⟨hg1, hg2, hg3⟩ := hg
  rw [scanSteps, if_pos ⟨hg1, hg2, hg3⟩]
  simp [henv]

theorem scan_cons_skip (env : Env) (now : Nat) (step : WStep) (rest : List WStep)
    (completed : List String) (results : List (String × Option Payload)) (trace : List Ev)
    (hg : ¬ readyToRun completed step) :
    scanSteps env now (step :: rest) completed results trace
      = { scanSteps env now rest completed results trace with
          steps := step :: (scanSteps env now rest completed results trace).steps } := by
  rw [scanSteps, if_neg (by simpa [readyToRun] using hg)]

/-- Every id in the scanned `completed_steps` is either an old entry or the
id of a step that the scan completed, whose stored result matches the
environment and whose dependencies are all themselves completed. -/
theorem scan_new_completed (env : Env) (now : Nat) :
    ∀ (steps : List WStep) (completed : List String)
      (results : List (String × Option Payload)) (trace : List Ev),
      ∀ id ∈ (scanSteps env now steps completed results trace).completed,
        id ∈ completed ∨
        ∃ s ∈ (scanSteps env now steps completed results trace).steps,
          s.step_id = id ∧ s.status = "completed" ∧ ResultOK env s ∧
          ∀ d ∈ s.dependencies, d ∈ (scanSteps env now steps completed results trace).completed := by
  intro steps
  induction steps with
  | nil =>
    intro completed results trace id hid
    exact Or.inl (by simpa [scanSteps] using hid)
  | cons step rest ih =>
    intro completed results trace id hid
    by_cases hg : readyToRun completed step
    · cases henv : env step.agent_type step.task step.data with
      | resp response =>
        cases hsucc : response.success with
        | true =>
          rw [scan_cons_success env now step rest completed results trace response hg henv hsucc]
            at hid ⊢
          rcases ih (completed ++ [step.step_id]) (results ++ [(step.step_id, response.data)])
              ((trace ++ [Ev.started step.step_id step.dependencies completed])
                ++ [Ev.stepCompleted step.step_id]) id hid with hold | ⟨s, hsmem, hfacts⟩
          · rcases List.mem_append.mp hold with hc | hsid
            · exact Or.inl hc
            · refine Or.inr ⟨_, List.mem_cons_self _ _, ?_, rfl, ?_, ?_⟩
              · simpa using (List.mem_singleton.mp hsid).symm
              · exact ⟨response, henv, hsucc, rfl⟩
              · intro d hd
                obtain ⟨Δ, hΔ⟩ := scan_completed_mono env now rest (completed ++ [step.step_id])
                  (results ++ [(step.step_id, response.data)])
                  ((trace ++ [Ev.started step.step_id step.dependencies completed])
                    ++ [Ev.stepCompleted step.step_id])
                rw [hΔ]
                exact List.mem_append_left _ (List.mem_append_left _ (hg.2.2 d hd))
          · exact Or.inr ⟨s, List.mem_cons_of_mem _ hsmem, hfacts⟩
        | false =>
          rw [scan_cons_fail env now step rest completed results trace response hg henv hsucc]
            at hid ⊢
          exact Or.inl hid
      | raised e =>
        rw [scan_cons_raised env now step rest completed results trace e hg henv] at hid ⊢
        exact Or.inl hid
    · rw [scan_cons_skip env now step rest completed results trace hg] at hid ⊢
      rcases ih completed results trace id hid with hold | ⟨s, hsmem, hfacts⟩
      · exact Or.inl hold
      · exact Or.inr ⟨s, List.mem_cons_of_mem _ hsmem, hfacts⟩

/-- Every step that is `completed` after a scan either was already in the
list before the scan (unchanged record), or was completed by this scan with
an environment-matching result and completed dependencies. -/
theorem scan_completed_steps (env : Env) (now : Nat) :
    ∀ (steps : List WStep) (completed : List String)
      (results : List (String × Option Payload)) (trace : List Ev),
      ∀ s ∈ (scanSteps env now steps completed results trace).steps, s.status = "completed" →
        s ∈ steps ∨
        (s.step_id ∈ (scanSteps env now steps completed results trace).completed ∧
          ResultOK env s ∧
          ∀ d ∈ s.dependencies, d ∈ (scanSteps env now steps completed results trace).completed) := by
  intro steps
  induction steps with
  | nil =>
    intro completed results trace s hs
    simp [scanSteps] at hs
  | cons step rest ih =>
    intro completed results trace s hs hstat
    by_cases hg : readyToRun completed step
    · cases henv : env step.agent_type step.task step.data with
      | resp response =>
        cases hsucc : response.success with
        | true =>
          rw [scan_cons_success env now step rest completed results trace response hg henv hsucc]
            at hs ⊢
          obtain ⟨Δ, hΔ⟩ := scan_completed_mono env now rest (completed ++ [step.step_id])
            (results ++ [(step.step_id, response.data)])
            ((trace ++ [Ev.started step.step_id step.dependencies completed])
              ++ [Ev.stepCompleted step.step_id])
          rcases List.mem_cons.mp hs with hEq | hmem
          · subst hEq
            refine Or.inr ⟨?_, ⟨response, henv, hsucc, rfl⟩, ?_⟩
            · rw [hΔ]
              exact List.mem_append_left _ (List.mem_append_right _ (List.mem_singleton_self _))
            · intro d hd
              rw [hΔ]
              exact List.mem_append_left _ (List.mem_append_left _ (hg.2.2 d hd))
          · rcases ih _ _ _ s hmem hstat with hold | hnew
            · exact Or.inl (List.mem_cons_of_mem _ hold)
            · exact Or.inr hnew
        | false =>
          rw [scan_cons_fail env now step rest completed results trace response hg henv hsucc]
            at hs ⊢
          rcases List.mem_cons.mp hs with hEq | hmem
          · rw [hEq] at hstat
            simp at hstat
          · exact Or.inl (List.mem_cons_of_mem _ hmem)
      | raised e =>
        rw [scan_cons_raised env now step rest completed results trace e hg henv] at hs ⊢
        rcases List.mem_cons.mp hs with hEq | hmem
        · rw [hEq] at hstat
          simp at hstat
        · exact Or.inl (List.mem_cons_of_mem _ hmem)
    · rw [scan_cons_skip env now step rest completed results trace hg] at hs ⊢
      rcases List.mem_cons.mp hs with hEq | hmem
      · exact Or.inl (hEq ▸ List.mem_cons_self _ _)
      · rcases ih _ _ _ s hmem hstat with hold | hnew
        · exact Or.inl (List.mem_cons_of_mem _ hold)
        · exact Or.inr hnew

/-- After a scan, every step is either an untouched input step, newly
`completed`, or newly `failed` — and the latter only when the scan aborted. -/
theorem scan_statuses (env : Env) (now : Nat) :
    ∀ (steps : List WStep) (completed : List String)
      (results : List (String × Option Payload)) (trace : List Ev),
      ∀ s ∈ (scanSteps env now steps completed results trace).steps,
        s ∈ steps ∨ s.status = "completed" ∨
        (s.status = "failed" ∧ (scanSteps env now steps completed results trace).abort ≠ none) := by
  intro steps
  induction steps with
  | nil =>
    intro completed results trace s hs
    simp [scanSteps] at hs
  | cons step rest ih =>
    intro completed results trace s hs
    by_cases hg : readyToRun completed step
    · cases henv : env step.agent_type step.task step.data with
      | resp response =>
        cases hsucc : response.success with
        | true =>
          rw [scan_cons_success env now step rest completed results trace response hg henv hsucc]
            at hs ⊢
          rcases List.mem_cons.mp hs with hEq | hmem
          · subst hEq
            exact Or.inr (Or.inl rfl)
          · rcases ih _ _ _ s hmem with hold | hrest
            · exact Or.inl (List.mem_cons_of_mem _ hold)
            · exact Or.inr hrest
        | false =>
          rw [scan_cons_fail env now step rest completed results trace response hg henv hsucc]
            at hs ⊢
          rcases List.mem_cons.mp hs with hEq | hmem
          · subst hEq
            exact Or.inr (Or.inr ⟨rfl, by simp⟩)
          · exact Or.inl (List.mem_cons_of_mem _ hmem)
      | raised e =>
        rw [scan_cons_raised env now step rest completed results trace e hg henv] at hs ⊢
        rcases List.mem_cons.mp hs with hEq | hmem
        · subst hEq
          exact Or.inr (Or.inr ⟨rfl, by simp⟩)
        · exact Or.inl (List.mem_cons_of_mem _ hmem)
    · rw [scan_cons_skip env now step rest completed results trace hg] at hs ⊢
      rcases List.mem_cons.mp hs with hEq | hmem
      · exact Or.inl (hEq ▸ List.mem_cons_self _ _)
      · rcases ih _ _ _ s hmem with hold | hrest
        · exact Or.inl (List.mem_cons_of_mem _ hold)
        · exact Or.inr hrest

/-- Every dispatch event a scan adds to the trace records a dependency list
contained in its snapshot, and a snapshot contained in the scan's final
`completed_steps`. -/
theorem scan_trace_started (env : Env) (now : Nat) :
    ∀ (steps : List WStep) (completed : List String)
      (results : List (String × Option Payload)) (trace : List Ev),
      ∀ sid deps snap,
        Ev.started sid deps snap ∈ (scanSteps env now steps completed results trace).trace →
        Ev.started sid deps snap ∈ trace ∨
        ((∀ d ∈ deps, d ∈ snap) ∧
          ∀ d ∈ snap, d ∈ (scanSteps env now steps completed results trace).completed) := by
  intro steps
  induction steps with
  | nil =>
    intro completed results trace sid deps snap hev
    exact Or.inl (by simpa [scanSteps] using hev)
  | cons step rest ih =>
    intro completed results trace sid deps snap hev
    by_cases hg : readyToRun completed step
    · cases henv : env step.agent_type step.task step.data with
      | resp response =>
        cases hsucc : response.success with
        | true =>
          rw [scan_cons_success env now step rest completed results trace response hg henv hsucc]
            at hev ⊢
          obtain ⟨Δ, hΔ⟩ := scan_completed_mono env now rest (completed ++ [step.step_id])
            (results ++ [(step.step_id, response.data)])
            ((trace ++ [Ev.started step.step_id step.dependencies completed])
              ++ [Ev.stepCompleted step.step_id])
          rcases ih _ _ _ sid deps snap hev with hold | hnew
          · rcases List.mem_append.mp hold with hold₂ | htail
            · rcases List.mem_append.mp hold₂ with htr | hstart
              · exact Or.inl htr
              · have hev₂ : Ev.started sid deps snap
                    = Ev.started step.step_id step.dependencies completed :=
                  List.mem_singleton.mp hstart
                have hdeps : deps = step.dependencies := by
                  injection hev₂ with h1 h2 h3
                have hsnap : snap = completed := by
                  injection hev₂ with h1 h2 h3
                refine Or.inr ⟨?_, ?_⟩
                · intro d hd
                  rw [hsnap]
                  exact hg.2.2 d (hdeps ▸ hd)
                · intro d hd
                  rw [hΔ]
                  exact List.mem_append_left _
                    (List.mem_append_left _ (hsnap ▸ hd))
            · exact absurd (List.mem_singleton.mp htail) (by simp)
          · exact Or.inr hnew
        | false =>
          rw [scan_cons_fail env now step rest completed results trace response hg henv hsucc]
            at hev ⊢
          rcases List.mem_append.mp hev with hold₂ | htail
          · rcases List.mem_append.mp hold₂ with htr | hstart
            · exact Or.inl htr
            · have hev₂ : Ev.started sid deps snap
                  = Ev.started step.step_id step.dependencies completed :=
                List.mem_singleton.mp hstart
              have hdeps : deps = step.dependencies := by
                injection hev₂ with h1 h2 h3
              have hsnap : snap = completed := by
                injection hev₂ with h1 h2 h3
              refine Or.inr ⟨?_, ?_⟩
              · intro d hd
                rw [hsnap]
                exact hg.2.2 d (hdeps ▸ hd)
              · intro d hd
                exact hsnap ▸ hd
          · exact absurd (List.mem_singleton.mp htail) (by simp)
      | raised e =>
        rw [scan_cons_raised env now step rest completed results trace e hg henv] at hev ⊢
        rcases List.mem_append.mp hev with hold₂ | htail
        · rcases List.mem_append.mp hold₂ with htr | hstart
          · exact Or.inl htr
          · have hev₂ : Ev.started sid deps snap
                = Ev.started step.step_id step.dependencies completed :=
              List.mem_singleton.mp hstart
            have hdeps : deps = step.dependencies := by
              injection hev₂ with h1 h2 h3
            have hsnap : snap = completed := by
              injection hev₂ with h1 h2 h3
            refine Or.inr ⟨?_, ?_⟩
            · intro d hd
              rw [hsnap]
              exact hg.2.2 d (hdeps ▸ hd)
            · intro d hd
              exact hsnap ▸ hd
        · exact absurd (List.mem_singleton.mp htail) (by simp)
    · rw [scan_cons_skip env now step rest completed results trace hg] at hev ⊢
      exact ih _ _ _ sid deps snap hev

/-- When a scan aborts with exception `e`, there is a step `t` that was
dispatched and failed: it is marked `failed` with `error = e`, its
dependencies were all in `completed_steps` at dispatch time (and still are),
any other `failed` step predates the scan, and the trace ends with exactly
the dispatch of `t` followed by its failure — nothing is started afterward. -/
theorem scan_abort_facts (env : Env) (now : Nat) :
    ∀ (steps : List WStep) (completed : List String)
      (results : List (String × Option Payload)) (trace : List Ev) (e : String),
      (scanSteps env now steps completed results trace).abort = some e →
      ∃ t, t ∈ (scanSteps env now steps completed results trace).steps ∧
        t.status = "failed" ∧ t.error = some e ∧
        (∀ d ∈ t.dependencies, d ∈ (scanSteps env now steps completed results trace).completed) ∧
        (∀ s ∈ (scanSteps env now steps completed results trace).steps,
          s.status = "failed" → s = t ∨ s ∈ steps) ∧
        ∃ pre, (scanSteps env now steps completed results trace).trace
          = pre ++ [Ev.started t.step_id t.dependencies
                      (scanSteps env now steps completed results trace).completed,
                    Ev.stepFailed t.step_id] := by
  intro steps
  induction steps with
  | nil =>
    intro completed results trace e hab
    simp [scanSteps] at hab
  | cons step rest ih =>
    intro completed results trace e hab
    by_cases hg : readyToRun completed step
    · cases henv : env step.agent_type step.task step.data with
      | resp response =>
        cases hsucc : response.success with
        | true =>
          rw [scan_cons_success env now step rest completed results trace response hg henv hsucc]
            at hab ⊢
          obtain ⟨t, htmem, htf, hterr, htdeps, huniq, pre, htr⟩ := ih _ _ _ e hab
          refine ⟨t, List.mem_cons_of_mem _ htmem, htf, hterr, htdeps, ?_, pre, htr⟩
          intro s hs hsf
          rcases List.mem_cons.mp hs with hEq | hmem
          · rw [hEq] at hsf
            simp at hsf
          · rcases huniq s hmem hsf with hst | hsrest
            · exact Or.inl hst
            · exact Or.inr (List.mem_cons_of_mem _ hsrest)
        | false =>
          rw [scan_cons_fail env now step rest completed results trace response hg henv hsucc]
            at hab ⊢
          have heq : "Step failed: " ++ optStr response.error = e := by
            simpa using hab
          subst heq
          refine ⟨_, List.mem_cons_self _ _, rfl, rfl, ?_, ?_, trace, ?_⟩
          · intro d hd
            exact hg.2.2 d hd
          · intro s hs hsf
            rcases List.mem_cons.mp hs with hEq | hmem
            · exact Or.inl hEq
            · exact Or.inr (List.mem_cons_of_mem _ hmem)
          · simp
      | raised e₂ =>
        rw [scan_cons_raised env now step rest completed results trace e₂ hg henv] at hab ⊢
        have heq : e₂ = e := by simpa using hab
        subst heq
        refine ⟨_, List.mem_cons_self _ _, rfl, rfl, ?_, ?_, trace, ?_⟩
        · intro d hd
          exact hg.2.2 d hd
        · intro s hs hsf
          rcases List.mem_cons.mp hs with hEq | hmem
          · exact Or.inl hEq
          · exact Or.inr (List.mem_cons_of_mem _ hmem)
        · simp
    · rw [scan_cons_skip env now step rest completed results trace hg] at hab ⊢
      obtain ⟨t, htmem, htf, hterr, htdeps, huniq, pre, htr⟩ := ih _ _ _ e hab
      refine ⟨t, List.mem_cons_of_mem _ htmem, htf, hterr, htdeps, ?_, pre, htr⟩
      intro s hs hsf
      rcases List.mem_cons.mp hs with hEq | hmem
      · exact Or.inr (hEq ▸ List.mem_cons_self _ _)
      · rcases huniq s hmem hsf with hst | hsrest
        · exact Or.inl hst
        · exact Or.inr (List.mem_cons_of_mem _ hsrest)

theorem scan_mem_comp (env : Env) (now : Nat) (st : ExecSt) (hinv : LoopInv env st) :
    ∀ id ∈ (scanState env now st).completed,
      ∃ s ∈ (scanState env now st).steps, s.step_id = id ∧ s.status = "completed" := by
  intro id hid
  rcases scan_new_completed env now st.steps st.completed st.results st.trace id hid
    with hold | ⟨s, hsmem, hsid, hstat, _, _⟩
  · obtain ⟨s, hsmem, hsid, hstat⟩ := hinv.1 id hold
    refine ⟨s, ?_, hsid, hstat⟩
    exact scan_preserves_nonpending env now st.steps st.completed st.results st.trace
      s hsmem (by rw [hstat]; decide)
  · exact ⟨s, hsmem, hsid, hstat⟩

theorem scan_comp_mem (env : Env) (now : Nat) (st : ExecSt) (hinv : LoopInv env st) :
    ∀ s ∈ (scanState env now st).steps, s.status = "completed" →
      s.step_id ∈ (scanState env now st).completed ∧ ResultOK env s ∧
      ∀ d ∈ s.dependencies, d ∈ (scanState env now st).completed := by
  intro s hs hstat
  obtain ⟨Δ, hΔ⟩ := scan_completed_mono env now st.steps st.completed st.results st.trace
  rcases scan_completed_steps env now st.steps st.completed st.results st.trace s hs hstat
    with hold | hnew
  · obtain ⟨hmem, hok, hdeps⟩ := hinv.2.1 s hold hstat
    refine ⟨?_, hok, ?_⟩
    · show s.step_id ∈ (scanSteps env now st.steps st.completed st.results st.trace).completed
      rw [hΔ]
      exact List.mem_append_left _ hmem
    · intro d hd
      show d ∈ (scanSteps env now st.steps st.completed st.results st.trace).completed
      rw [hΔ]
      exact List.mem_append_left _ (hdeps d hd)
  · exact hnew

theorem scan_trace_inv (env : Env) (now : Nat) (st : ExecSt) (hinv : LoopInv env st) :
    ∀ sid deps snap, Ev.started sid deps snap ∈ (scanState env now st).trace →
      (∀ d ∈ deps, d ∈ snap) ∧ ∀ d ∈ snap, d ∈ (scanState env now st).completed := by
  intro sid deps snap hev
  obtain ⟨Δ, hΔ⟩ := scan_completed_mono env now st.steps st.completed st.results st.trace
  rcases scan_trace_started env now st.steps st.completed st.results st.trace sid deps snap hev
    with hold | hnew
  · obtain ⟨hdeps, hsnap⟩ := hinv.2.2.2 sid deps snap hold
    refine ⟨hdeps, ?_⟩
    intro d hd
    show d ∈ (scanSteps env now st.steps st.completed st.results st.trace).completed
    rw [hΔ]
    exact List.mem_append_left _ (hsnap d hd)
  · exact hnew

/-- A scan with no abort preserves the loop invariant. -/
theorem scan_preserves_LoopInv (env : Env) (now : Nat) (st : ExecSt) (hinv : LoopInv env st)
    (hab : (scanSteps env now st.steps st.completed st.results st.trace).abort = none) :
    LoopInv env (scanState env now st) := by
  refine ⟨scan_mem_comp env now st hinv, scan_comp_mem env now st hinv, ?_,
    scan_trace_inv env now st hinv⟩
  intro s hs
  rcases scan_statuses env now st.steps st.completed st.results st.trace s hs
    with hold | hcomp | ⟨_, habne⟩
  · exact hinv.2.2.1 s hold
  · exact Or.inr hcomp
  · exact absurd hab habne

/-- A scan that aborts, from an invariant state, establishes the abort
facts. -/
theorem scan_aborts_AbortFacts (env : Env) (now : Nat) (st : ExecSt) (e : String)
    (hinv : LoopInv env st)
    (hab : (scanSteps env now st.steps st.completed st.results st.trace).abort = some e) :
    AbortFacts env e (scanState env now st) := by
  obtain ⟨t, htmem, htf, hterr, htdeps, huniq, pre, htr⟩ :=
    scan_abort_facts env now st.steps st.completed st.results st.trace e hab
  refine ⟨scan_mem_comp env now st hinv, scan_comp_mem env now st hinv, ?_, ?_,
    scan_trace_inv env now st hinv⟩
  · refine ⟨t, htmem, htf, hterr, htdeps, ?_, pre, htr⟩
    intro s hs hsf
    rcases huniq s hs hsf with hst | hsold
    · exact hst
    · rcases hinv.2.2.1 s hsold with hp | hc
      · rw [hsf] at hp
        simp at hp
      · rw [hsf] at hc
        simp at hc
  · intro s hs
    rcases scan_statuses env now st.steps st.completed st.results st.trace s hs
      with hold | hcomp | ⟨hfail, _⟩
    · rcases hinv.2.2.1 s hold with hp | hc
      · exact Or.inl hp
      · exact Or.inr (Or.inl hc)
    · exact Or.inr (Or.inl hcomp)
    · exact Or.inr (Or.inr hfail)

theorem execLoop_post (env : Env) (now : Nat) :
    ∀ (fuel : Nat) (st : ExecSt), LoopInv env st → PostFacts env (execLoop env now fuel st) := by
  intro fuel
  induction fuel with
  | zero =>
    intro st hinv
    rw [execLoop]
    by_cases hc : st.completed.length < st.steps.length
    · rw [if_pos hc]
      exact hinv
    · rw [if_neg hc]
      exact hinv
  | succ fuel ih =>
    intro st hinv
    rw [execLoop]
    by_cases hc : st.completed.length < st.steps.length
    · rw [if_pos hc]
      show PostFacts env
        (match (scanSteps env now st.steps st.completed st.results st.trace).abort with
         | some e => LoopRes.aborted e (scanState env now st)
         | none =>
           if (scanState env now st).completed.length = 0 then
             LoopRes.aborted "Workflow deadlock detected - no progress possible"
               (scanState env now st)
           else execLoop env now fuel (scanState env now st))
      cases hab : (scanSteps env now st.steps st.completed st.results st.trace).abort with
      | some e =>
        exact Or.inl (scan_aborts_AbortFacts env now st e hinv hab)
      | none =>
        by_cases hz : (scanState env now st).completed.length = 0
        · rw [if_pos hz]
          exact Or.inr ⟨scan_preserves_LoopInv env now st hinv hab, rfl⟩
        · rw [if_neg hz]
          exact ih (scanState env now st) (scan_preserves_LoopInv env now st hinv hab)
    · rw [if_neg hc]
      exact hinv

/-- The loop never changes the step ids, whatever its outcome. -/
theorem execLoop_map_id (env : Env) (now : Nat) :
    ∀ (fuel : Nat) (st : ExecSt),
      ((execLoop env now fuel st).state.steps).map WStep.step_id
        = st.steps.map WStep.step_id := by
  intro fuel
  induction fuel with
  | zero =>
    intro st
    rw [execLoop]
    by_cases hc : st.completed.length < st.steps.length
    · rw [if_pos hc]
      rfl
    · rw [if_neg hc]
      rfl
  | succ fuel ih =>
    intro st
    rw [execLoop]
    by_cases hc : st.completed.length < st.steps.length
    · rw [if_pos hc]
      show ((match (scanSteps env now st.steps st.completed st.results st.trace).abort with
         | some e => LoopRes.aborted e (scanState env now st)
         | none =>
           if (scanState env now st).completed.length = 0 then
             LoopRes.aborted "Workflow deadlock detected - no progress possible"
               (scanState env now st)
           else execLoop env now fuel (scanState env now st)).state.steps).map WStep.step_id
        = st.steps.map WStep.step_id
      cases hab : (scanSteps env now st.steps st.completed st.results st.trace).abort with
      | some e =>
        exact scan_map_id env now st.steps st.completed st.results st.trace
      | none =>
        by_cases hz : (scanState env now st).completed.length = 0
        · rw [if_pos hz]
          exact scan_map_id env now st.steps st.completed st.results st.trace
        · rw [if_neg hz]
          rw [ih (scanState env now st)]
          exact scan_map_id env now st.steps st.completed st.results st.trace
    · rw [if_neg hc]
      rfl

/-- The initial loop state of a fresh execution satisfies the invariant. -/
theorem LoopInv_init (env : Env) (steps₀ : List WStep)
    (hp : ∀ s ∈ steps₀, s.status = "pending") :
    LoopInv env ⟨steps₀, [], [], []⟩ := by
  refine ⟨?_, ?_, ?_, ?_⟩
  · intro id hid
    exact absurd hid (List.not_mem_nil id)
  · intro s hs hstat
    rw [hp s hs] at hstat
    simp at hstat
  · intro s hs
    exact Or.inl (hp s hs)
  · intro sid deps snap hev
    exact absurd hev (List.not_mem_nil _)

/-- From the loop postcondition: every dispatch was guarded, and every
snapshot entry names a step that really is `completed` in the final state. -/
theorem post_trace_guard (env : Env) (st : ExecSt)
    (hfacts : LoopInv env st ∨ ∃ e, AbortFacts env e st) :
    ∀ sid deps snap, Ev.started sid deps snap ∈ st.trace →
      (∀ d ∈ deps, d ∈ snap) ∧
      ∀ d ∈ snap, ∃ s ∈ st.steps, s.step_id = d ∧ s.status = "completed" := by
  intro sid deps snap hev
  rcases hfacts with hinv | ⟨e, hA⟩
  · obtain ⟨hdeps, hsnap⟩ := hinv.2.2.2 sid deps snap hev
    exact ⟨hdeps, fun d hd => hinv.1 d (hsnap d hd)⟩
  · obtain ⟨hdeps, hsnap⟩ := hA.2.2.2.2 sid deps snap hev
    exact ⟨hdeps, fun d hd => hA.1 d (hsnap d hd)⟩

/-- From the loop postcondition: a step with a failed dependency is still
`pending` in the final state — it was never dispatched. -/
theorem post_failed_dep_pending (env : Env) (st : ExecSt)
    (hnd : (st.steps.map WStep.step_id).Nodup)
    (hfacts : LoopInv env st ∨ ∃ e, AbortFacts env e st) :
    ∀ s ∈ st.steps, ∀ t ∈ st.steps, t.status = "failed" → t.step_id ∈ s.dependencies →
      s.status = "pending" := by
  intro s hs t ht htf hdep
  have hinj : ∀ u ∈ st.steps, ∀ v ∈ st.steps, u.step_id = v.step_id → u = v := by
    intro u hu v hv huv
    exact List.inj_on_of_nodup_map hnd hu hv huv
  rcases hfacts with hinv | ⟨e, hA⟩
  · rcases hinv.2.2.1 t ht with hp | hc
    · rw [htf] at hp
      simp at hp
    · rw [htf] at hc
      simp at hc
  · obtain ⟨t₀, ht₀mem, ht₀f, _, ht₀deps, huniq, _⟩ := hA.2.2.1
    have htt₀ : t = t₀ := huniq t ht htf
    have hcontra : t.step_id ∈ st.completed → False := by
      intro hmem
      obtain ⟨u, humem, husid, hustat⟩ := hA.1 t.step_id hmem
      have hut : u = t := hinj u humem t ht husid
      rw [hut, htf] at hustat
      simp at hustat
    rcases hA.2.2.2.1 s hs with hp | hc | hf
    · exact hp
    · obtain ⟨_, _, hdeps⟩ := hA.2.1 s hs hc
      exact absurd (hdeps t.step_id hdep) (fun h => hcontra h)
    · have hst : s = t := (huniq s hs hf).trans htt₀.symm
      rw [hst] at hdep
      rw [htt₀] at hdep
      exact absurd (ht₀deps t.step_id (htt₀ ▸ hdep)) (fun h => hcontra h)

/-- C2: in every `execute_workflow` run over a fresh workflow with distinct
step ids, a step is set to `running` and dispatched through `query_agent`
only at a moment when every id in its dependency list is in the
`completed_steps` set (each such id naming a step whose final status really
is `completed`); and a step one of whose dependencies ends `failed` is never
dispatched — it is still `pending` in the final state, whatever the loop
outcome. -/
theorem C2_dispatch_only_after_completed_deps
    (env : Env) (now fuel : Nat) (steps₀ : List WStep)
    (hnd : (steps₀.map WStep.step_id).Nodup)
    (hp : ∀ s ∈ steps₀, s.status = "pending") :
    (∀ sid deps snap,
        Ev.started sid deps snap ∈ (execLoop env now fuel ⟨steps₀, [], [], []⟩).state.trace →
        (∀ d ∈ deps, d ∈ snap) ∧
        ∀ d ∈ snap, ∃ s ∈ (execLoop env now fuel ⟨steps₀, [], [], []⟩).state.steps,
          s.step_id = d ∧ s.status = "completed")
    ∧ ∀ s ∈ (execLoop env now fuel ⟨steps₀, [], [], []⟩).state.steps,
        ∀ t ∈ (execLoop env now fuel ⟨steps₀, [], [], []⟩).state.steps,
        t.status = "failed" → t.step_id ∈ s.dependencies → s.status = "pending" := by
  have hpost := execLoop_post env now fuel ⟨steps₀, [], [], []⟩ (LoopInv_init env steps₀ hp)
  have hids := execLoop_map_id env now fuel ⟨steps₀, [], [], []⟩
  have hfacts : LoopInv env (execLoop env now fuel ⟨steps₀, [], [], []⟩).state ∨
      ∃ e, AbortFacts env e (execLoop env now fuel ⟨steps₀, [], [], []⟩).state := by
    cases hres : execLoop env now fuel ⟨steps₀, [], [], []⟩ with
    | finished st =>
      rw [hres] at hpost
      exact Or.inl hpost
    | fuelOut st =>
      rw [hres] at hpost
      exact Or.inl hpost
    | aborted e st =>
      rw [hres] at hpost
      rcases hpost with hA | ⟨hinv, _⟩
      · exact Or.inr ⟨e, hA⟩
      · exact Or.inl hinv
  have hnd' : (((execLoop env now fuel ⟨steps₀, [], [], []⟩).state.steps).map
      WStep.step_id).Nodup := by
    rw [hids]
    exact hnd
  exact ⟨post_trace_guard env _ hfacts,
    post_failed_dep_pending env _ hnd' hfacts⟩

/-- C2 witness: the fresh sample workflow (step 1 fails), executed with five
scans. -/
theorem C2_dispatch_only_after_completed_deps_witness :
    (∀ sid deps snap,
        Ev.started sid deps snap
          ∈ (execLoop sampleEnv 0 5 ⟨sampleWorkflow.steps, [], [], []⟩).state.trace →
        (∀ d ∈ deps, d ∈ snap) ∧
        ∀ d ∈ snap, ∃ s ∈ (execLoop sampleEnv 0 5 ⟨sampleWorkflow.steps, [], [], []⟩).state.steps,
          s.step_id = d ∧ s.status = "completed")
    ∧ ∀ s ∈ (execLoop sampleEnv 0 5 ⟨sampleWorkflow.steps, [], [], []⟩).state.steps,
        ∀ t ∈ (execLoop sampleEnv 0 5 ⟨sampleWorkflow.steps, [], [], []⟩).state.steps,
        t.status = "failed" → t.step_id ∈ s.dependencies → s.status = "pending" :=
  C2_dispatch_only_after_completed_deps sampleEnv 0 5 sampleWorkflow.steps
    (by decide) (by decide)

/-- C3: when a dispatched step of a fresh stored workflow fails (failure
response or raised dispatch — i.e. the loop aborts and a step ends
`failed`), then: that step records the propagated error and is the *only*
failed step; the trace ends with its dispatch and failure, so no further
step is started after that point; every step marked `completed` keeps its
stored, environment-matching result; and `execute_workflow` stores the
workflow back with status `failed` and re-raises the same error to the
caller. -/
theorem C3_step_failure_aborts_workflow
    (env : Env) (now fuel : Nat) (workflows : List (String × Workflow))
    (workflow_id : String) (wf : Workflow) (e : String) (st' : ExecSt)
    (hlk : alookup workflow_id workflows = some wf)
    (hp : ∀ s ∈ wf.steps, s.status = "pending")
    (hab : execLoop env now fuel ⟨wf.steps, [], [], []⟩ = LoopRes.aborted e st')
    (t : WStep) (ht : t ∈ st'.steps) (htf : t.status = "failed") :
    t.error = some e
    ∧ (∀ s ∈ st'.steps, s.status = "failed" → s = t)
    ∧ (∃ pre, st'.trace
        = pre ++ [Ev.started t.step_id t.dependencies st'.completed,
                  Ev.stepFailed t.step_id])
    ∧ (∀ s ∈ st'.steps, s.status = "completed" → ResultOK env s)
    ∧ execute_workflow env now fuel workflows workflow_id
        = (ainsert workflow_id
            { wf with
              steps := st'.steps
              status := "failed"
              started_at := some now
              completed_at := some now } workflows,
           ExecOutcome.error (MgrErr.raised e)) := by
  have hpost := execLoop_post env now fuel ⟨wf.steps, [], [], []⟩ (LoopInv_init env wf.steps hp)
  rw [hab] at hpost
  rcases hpost with hA | ⟨hinv, _⟩
  · obtain ⟨t₀, ht₀mem, ht₀f, ht₀err, ht₀deps, huniq, pre, htr⟩ := hA.2.2.1
    have htt₀ : t = t₀ := huniq t ht htf
    refine ⟨?_, ?_, ?_, ?_, ?_⟩
    · rw [htt₀]
      exact ht₀err
    · intro s hs hsf
      exact (huniq s hs hsf).trans htt₀.symm
    · refine ⟨pre, ?_⟩
      rw [htt₀]
      exact htr
    · intro s hs hc
      exact (hA.2.1 s hs hc).2.1
    · exact execute_workflow_aborted_eq env now fuel workflows workflow_id wf e st' hlk hab
  · rcases hinv.2.2.1 t ht with hpend | hcomp
    · rw [htf] at hpend
      simp at hpend
    · rw [htf] at hcomp
      simp at hcomp

/-- C3 witness: the fresh sample workflow, whose step 1 fails. -/
theorem C3_step_failure_aborts_workflow_witness :
    failedStep1.error = some "Step failed: boom"
    ∧ (∀ s ∈ abortSt.steps, s.status = "failed" → s = failedStep1)
    ∧ (∃ pre, abortSt.trace
        = pre ++ [Ev.started failedStep1.step_id failedStep1.dependencies abortSt.completed,
                  Ev.stepFailed failedStep1.step_id])
    ∧ (∀ s ∈ abortSt.steps, s.status = "completed" → ResultOK sampleEnv s)
    ∧ execute_workflow sampleEnv 0 5 sampleStore "w1"
        = (ainsert "w1"
            { sampleWorkflow with
              steps := abortSt.steps
              status := "failed"
              started_at := some 0
              completed_at := some 0 } sampleStore,
           ExecOutcome.error (MgrErr.raised "Step failed: boom")) :=
  C3_step_failure_aborts_workflow sampleEnv 0 5 sampleStore "w1" sampleWorkflow
    "Step failed: boom" abortSt rfl (by decide) rfl failedStep1 (by decide) rfl

end Janus

